import Mathlib

/-!
A shallow embedding of the migration-state reconciliation core of
`trudge-cli` (`src/core.ts` and `src/util.ts`), together with proofs of the
behavioural properties claimed in the specification.

Modelling conventions:
* JavaScript strings are Lean `String`s; all string manipulation is done on
  the underlying `List Char` with executable definitions so that concrete
  runs evaluate by `decide`.
* The SQLite database handle is modelled by `Db σ`: the ledger table (rows
  of the migrations tracking table) plus an abstract schema state `σ`.
  `db.exec script` is modelled by a caller-supplied executor
  `ex : String → σ → Option σ`; `none` models a raised SQL error.  A
  better-sqlite3 transaction is atomic, so an error inside one leaves the
  database exactly as it was: the model encodes this by returning the
  original state on failure.
* The SHA-1 digest in `canonicalId` is modelled by its pre-image string
  (the digest is treated as injective, as the claims direct).
* The verbose progress callback and the scripts handed to `db.exec` are
  observed through an event trace.
-/

/-- The set of JavaScript whitespace characters (as used by
`String.prototype.trim` and by `\s` in regular expressions). -/
def jsWs (c : Char) : Bool :=
  c = ' ' || c = '\t' || c = '\n' || c = '\x0b' || c = '\x0c' || c = '\r' ||
  c = ' ' || c = ' ' || c = ' ' || c = ' ' || c = ' ' ||
  c = ' ' || c = ' ' || c = ' ' || c = ' ' || c = ' ' ||
  c = ' ' || c = ' ' || c = ' ' || c = ' ' || c = ' ' ||
  c = ' ' || c = ' ' || c = '　' || c = '﻿'

/-- Drop trailing characters satisfying `p` (helper for `jsTrim`). -/
def dropTrailing (p : Char → Bool) (l : List Char) : List Char :=
  (l.reverse.dropWhile p).reverse

/-- JavaScript `String.prototype.trim`: strip leading and trailing
whitespace. -/
def jsTrim (s : String) : String :=
  ⟨dropTrailing jsWs (s.data.dropWhile jsWs)⟩

/-- Decimal digit characters, `digitOf d` for `d < 10`. -/
def digitOf (d : Nat) : Char :=
  if d = 0 then '0' else if d = 1 then '1' else if d = 2 then '2'
  else if d = 3 then '3' else if d = 4 then '4' else if d = 5 then '5'
  else if d = 6 then '6' else if d = 7 then '7' else if d = 8 then '8' else '9'

/-- Fuel-driven decimal rendering of a natural number (least significant
digit last).  Structural in the fuel so that the kernel can evaluate it. -/
def natChars : Nat → Nat → List Char
  | 0, _ => []
  | fuel + 1, n =>
    if n < 10 then [digitOf n]
    else natChars fuel (n / 10) ++ [digitOf (n % 10)]

/-- JavaScript number-to-string conversion for the (integral, non-negative)
migration ids that occur in this program. -/
def natStr (n : Nat) : String := ⟨natChars (n + 1) n⟩

/-- A migration: `id`, `name`, paired `upgrade`/`downgrade` script texts
(`type Migration` in `core.ts`). -/
structure Migration where
  id : Nat
  name : String
  upgrade : String
  downgrade : String
deriving DecidableEq, Repr

/-- `canonicalId` from `core.ts`: the canonical content fingerprint of a
migration.  The source hashes the canonicalized string
`id:{id}\nname:{name.trim()}\nupgrade:{upgrade.trim()}\ndowngrade:{downgrade.trim()}`
with SHA-1; following the claims, the digest is treated as injective and is
modelled by its pre-image string. -/
def canonicalId (m : Migration) : String :=
  "id:" ++ natStr m.id ++ "\nname:" ++ jsTrim m.name ++
  "\nupgrade:" ++ jsTrim m.upgrade ++ "\ndowngrade:" ++ jsTrim m.downgrade

example : jsTrim "  ab c\n" = "ab c" := by decide
example : natStr 0 = "0" := by decide
example : natStr 1042 = "1042" := by decide
example :
    canonicalId ⟨3, " a ", "up", "dn"⟩ = "id:3\nname:a\nupgrade:up\ndowngrade:dn" := by
  decide

/-! ## JavaScript objects as association lists

`util.ts` builds plain objects keyed by fingerprint strings (`index`) and
reads them back with `Object.entries` (`valuesByKeyPred`, `count`).
Fingerprint keys are never array indices, so JavaScript enumerates them in
insertion order; an association list with insert-or-overwrite reproduces
that order exactly. -/

/-- One step of `Object.fromEntries`: overwrite the value at an existing
key in place, otherwise append the new entry. -/
def jsObjInsert (o : List (String × Migration)) (k : String) (v : Migration) :
    List (String × Migration) :=
  if o.any (fun p => p.1 = k) then
    o.map (fun p => if p.1 = k then (k, v) else p)
  else o ++ [(k, v)]

/-- `index` from `util.ts`: build an object from a list of values keyed by
`id(v)` (here always `canonicalId`). -/
def index (values : List Migration) (id : Migration → String) :
    List (String × Migration) :=
  values.foldl (fun o v => jsObjInsert o (id v) v) []

/-- `valuesByKeyPred` from `util.ts`: the values of an object whose keys
satisfy the predicate, in key insertion order. -/
def valuesByKeyPred (o : List (String × Migration)) (pred : String → Bool) :
    List Migration :=
  (o.filter (fun p => pred p.1)).map (fun p => p.2)

/-- Membership of a key in an object. -/
def hasKey (o : List (String × Migration)) (k : String) : Bool :=
  o.any (fun p => p.1 = k)

/-! ## Sorting

`compareMigrationState` sorts each result ascending with the comparator
`(x, y) => x.id - y.id`; `Array.prototype.sort` is a stable sort, modelled
here by a stable insertion sort. -/

/-- Insert into a list sorted ascending by `key`, after any element with an
equal key (stability). -/
def insertByKey {α : Type} (key : α → Nat) (a : α) : List α → List α
  | [] => [a]
  | x :: xs => if key a < key x then a :: x :: xs else x :: insertByKey key a xs

/-- Stable sort ascending by `key`. -/
def sortByKey {α : Type} (key : α → Nat) : List α → List α
  | [] => []
  | x :: xs => insertByKey key x (sortByKey key xs)

/-- The three-way diff result (`type MigrationState` in `core.ts`). -/
structure MigrationState where
  shared : List Migration
  missing : List Migration
  unexpected : List Migration
deriving DecidableEq, Repr

/-- `compareMigrationState` from `core.ts`: fingerprint-keyed three-way
diff of the expected and applied migration lists, each result sorted
ascending by id. -/
def compareMigrationState (expected applied : List Migration) : MigrationState :=
  let eByFp := index expected canonicalId
  let aByFp := index applied canonicalId
  let shared := valuesByKeyPred eByFp (fun id => hasKey aByFp id)
  let missing := valuesByKeyPred eByFp (fun id => !hasKey aByFp id)
  let unexpected := valuesByKeyPred aByFp (fun id => !hasKey eByFp id)
  { shared := sortByKey Migration.id shared
    missing := sortByKey Migration.id missing
    unexpected := sortByKey Migration.id unexpected }

example :
    compareMigrationState [⟨2, "b", "u", "d"⟩, ⟨1, "a", "u", "d"⟩] [⟨1, "a", "u", "d"⟩] =
      { shared := [⟨1, "a", "u", "d"⟩], missing := [⟨2, "b", "u", "d"⟩], unexpected := [] } := by
  decide

/-! ## Migration files

`splitTemplate` splits a file on the regex `/^--\s*?trudge:downgrade\b/im`,
strips `--`-comment lines from each part (`/^--.*?$/gm`) and trims.  The
regex is modelled character-exactly: a match starts at a line start with
`--`, then any run of whitespace (which may include newlines), then
`trudge:downgrade` case-insensitively, followed by a word boundary. -/

/-- Case-insensitive literal match: strip `pat` (given lowercase) from the
front of `s`, comparing via `Char.toLower`. -/
def matchCI : List Char → List Char → Option (List Char)
  | [], s => some s
  | _ :: _, [] => none
  | p :: ps, c :: cs => if c.toLower = p then matchCI ps cs else none

/-- JavaScript word character (`\w`), for the `\b` boundary check. -/
def isWordChar (c : Char) : Bool := c.isAlphanum || c = '_'

/-- Match the delimiter regex at this position (which must be a line
start); return the remainder after the match. -/
def matchDelimAt (s : List Char) : Option (List Char) :=
  match s with
  | '-' :: '-' :: rest =>
    match matchCI "trudge:downgrade".data (rest.dropWhile jsWs) with
    | none => none
    | some r =>
      match r with
      | [] => some []
      | c :: _ => if isWordChar c then none else some r
  | _ => none

/-- `String.prototype.split` on the delimiter regex: scan the text, closing
the current piece at each match.  `lineStart` tracks whether the current
position follows a `\n` (or is the start of the string); the fuel is
structural and any fuel beyond the text length is sufficient. -/
def splitDelim : Nat → List Char → Bool → List Char → List (List Char)
  | 0, _, _, acc => [acc.reverse]
  | fuel + 1, s, lineStart, acc =>
    match s with
    | [] => [acc.reverse]
    | c :: cs =>
      if lineStart then
        match matchDelimAt (c :: cs) with
        | some rest => acc.reverse :: splitDelim fuel rest false []
        | none => splitDelim fuel cs (c = '\n') (c :: acc)
      else splitDelim fuel cs (c = '\n') (c :: acc)

/-- Split into lines at `\n` (the separators are not kept). -/
def splitLinesAux : List Char → List Char → List (List Char)
  | [], acc => [acc.reverse]
  | c :: cs, acc =>
    if c = '\n' then acc.reverse :: splitLinesAux cs []
    else splitLinesAux cs (c :: acc)

/-- `part.replace(/^--.*?$/gm, '')`: blank out every line that starts with
`--`. -/
def stripComments (cs : List Char) : List Char :=
  List.intercalate ['\n']
    ((splitLinesAux cs []).map (fun l => if l.take 2 = ['-', '-'] then [] else l))

/-- Comment-strip and trim one split piece. -/
def cleanPart (cs : List Char) : String := jsTrim ⟨stripComments cs⟩

/-- `splitTemplate` from `core.ts`: split the file into `(upgrade,
downgrade)`; `none` models the `null` returned when there is no delimiter
or the downgrade section is empty after cleaning. -/
def splitTemplate (template : String) : Option (String × String) :=
  let parts :=
    (splitDelim (template.data.length + 1) template.data true []).map cleanPart
  match parts with
  | up :: down :: _ => if down = "" then none else some (up, down)
  | _ => none

/-- Numeric value of a digit string (JavaScript `Number` on `\d+`). -/
def natOfDigits (ds : List Char) : Nat :=
  ds.foldl (fun a c => a * 10 + (c.toNat - 48)) 0

/-- Modelled from the spec: `MIGRATION_FILENAME_REGEX` is defined in
`src/constants.ts`, which is not among the provided sources.  The spec
gives the pattern `^(\d+)\.(.+?)\.sql$`: leading digits become the id, the
middle (which `.` forbids from containing a line terminator) becomes the
name.  Returns `none` when the name does not match. -/
def parseFilename (s : String) : Option (Nat × String) :=
  let cs := s.data
  let ds := cs.takeWhile Char.isDigit
  let rest := cs.dropWhile Char.isDigit
  if ds.isEmpty then none
  else
    match rest with
    | [] => none
    | c :: rest2 =>
      if c = '.' then
        let n := rest2.length
        if 5 ≤ n && rest2.drop (n - 4) = ['.', 's', 'q', 'l'] &&
            (rest2.take (n - 4)).all
              (fun ch => ch ≠ '\n' ∧ ch ≠ '\r' ∧ ch ≠ ' ' ∧ ch ≠ ' ')
        then some (natOfDigits ds, ⟨rest2.take (n - 4)⟩)
        else none
      else none

deriving instance DecidableEq for Except

/-- Errors raised while reading a migrations directory.  The source throws
`Error`s whose messages name the offending file (malformed) or the full
list of colliding ids (duplicates); the model keeps them structured. -/
inductive ReadDirError where
  | malformed (filename : String)
  | duplicateIds (ids : List Nat)
deriving DecidableEq, Repr

/-- `parseMigrationFile` from `core.ts`, over a `(basename, content)` pair:
`none` for files whose name does not match the pattern, an error for a
candidate whose content has no parseable downgrade section. -/
def parseMigrationFile (filename content : String) :
    Except ReadDirError (Option Migration) :=
  match parseFilename filename with
  | none => .ok none
  | some (id, name) =>
    match splitTemplate content with
    | none => .error (.malformed filename)
    | some (up, down) => .ok (some ⟨id, name, up, down⟩)

/-- The map-then-filter stage of `readMigrationsDir`: parse every file,
keeping the defined results, propagating the first malformed-file error. -/
def collectMigrations : List (String × String) → Except ReadDirError (List Migration)
  | [] => .ok []
  | (f, c) :: rest =>
    match parseMigrationFile f c with
    | .error e => .error e
    | .ok none => collectMigrations rest
    | .ok (some m) => (collectMigrations rest).map (fun ms => m :: ms)

/-- How many parsed migrations carry the id `i` (the `count` util keyed by
`m.id`). -/
def countId (ms : List Migration) (i : Nat) : Nat :=
  (ms.filter (fun m => m.id = i)).length

/-- The ids occurring more than once, ascending (JavaScript enumerates the
integer-like keys of the count object in ascending numeric order). -/
def dupIds (ms : List Migration) : List Nat :=
  sortByKey (fun i => i) (((ms.map Migration.id).dedup).filter (fun i => 1 < countId ms i))

/-- `readMigrationsDir` from `core.ts`, over a directory listing of
`(basename, content)` pairs: parse everything, then fail if any id is
duplicated, naming all duplicated ids. -/
def readMigrationsDir (dir : List (String × String)) :
    Except ReadDirError (List Migration) :=
  match collectMigrations dir with
  | .error e => .error e
  | .ok ms =>
    if (dupIds ms).isEmpty then .ok ms else .error (.duplicateIds (dupIds ms))

example :
    splitTemplate "--trudge:upgrade\nCREATE X\n-- a comment\n--trudge:downgrade\nDROP X" =
      some ("CREATE X", "DROP X") := by decide
example : splitTemplate "-- TRUDGE:DOWNGRADE more\nx" = some ("", "more\nx") := by decide
example : splitTemplate "CREATE X" = none := by decide
example : splitTemplate "up\n--trudge:downgrade\n  \n" = none := by decide
example : parseFilename "001.init.sql" = some (1, "init") := by decide
example : parseFilename "0.a.b.sql" = some (0, "a.b") := by decide
example : parseFilename "x.sql" = none := by decide
example : parseFilename "12.sql" = none := by decide
example :
    readMigrationsDir [("1.a.sql", "--trudge:downgrade\nx"), ("01.b.sql", "--trudge:downgrade\ny")] =
      .error (.duplicateIds [1]) := by decide
example :
    readMigrationsDir [("1.a.sql", "--trudge:downgrade\nx"), ("notes.txt", "whatever")] =
      .ok [⟨1, "a", "", "x"⟩] := by decide

/-! ## The database

`Db σ` models the SQLite handle: the rows of the migrations tracking table
plus an abstract schema state `σ` acted on by `db.exec`.  The tracking
table is lazily and idempotently creatable (`CREATE TABLE IF NOT EXISTS`
inside `createMigrationsTable`); since only its rows are observable here,
table creation is the identity on the model and is not written out. -/

/-- A database: ledger rows plus abstract schema state. -/
structure Db (σ : Type) where
  ledger : List Migration
  schema : σ
deriving DecidableEq

/-- `type MigrationMode` from `core.ts`. -/
inductive MigrationMode where
  | upgrade
  | downgrade
deriving DecidableEq, Repr

/-- Does the ledger hold a row with this id (`id INTEGER PRIMARY KEY`)? -/
def hasId (l : List Migration) (i : Nat) : Bool := l.any (fun r => r.id = i)

/-- `INSERT OR IGNORE INTO ... VALUES (id, name, upgrade, downgrade)`:
returns the new rows and the `RunResult.changes` count. -/
def ledgerInsert (l : List Migration) (m : Migration) : List Migration × Nat :=
  if hasId l m.id then (l, 0) else (l ++ [m], 1)

/-- `DELETE FROM ... WHERE id = ?`: returns the new rows and the
`RunResult.changes` count. -/
def ledgerRemove (l : List Migration) (i : Nat) : List Migration × Nat :=
  (l.filter (fun r => r.id ≠ i), (l.filter (fun r => r.id = i)).length)

/-- `readMigrationsTable` from `core.ts`: every row, `ORDER BY id ASC`. -/
def readMigrationsTable {σ : Type} (db : Db σ) : List Migration :=
  sortByKey Migration.id db.ledger

/-- `applyMigration` from `core.ts`.  Returns the scripts submitted to
`db.exec` and either the updated database with the applied flag, or an
error when the script raised; the enclosing transaction then rolls back,
so the caller's database is untouched (the model returns no new state). -/
def applyMigration {σ : Type} (ex : String → σ → Option σ) (db : Db σ)
    (migration : Migration) (mode : MigrationMode) (force : Bool) :
    List String × Except Unit (Db σ × Bool) :=
  if force then
    match mode with
    | .upgrade =>
      match ex migration.upgrade db.schema with
      | none => ([migration.upgrade], .error ())
      | some sch =>
        ([migration.upgrade], .ok (⟨(ledgerInsert db.ledger migration).1, sch⟩, true))
    | .downgrade =>
      match ex migration.downgrade db.schema with
      | none => ([migration.downgrade], .error ())
      | some sch =>
        ([migration.downgrade], .ok (⟨(ledgerRemove db.ledger migration.id).1, sch⟩, true))
  else
    match mode with
    | .upgrade =>
      let ins := ledgerInsert db.ledger migration
      if 0 < ins.2 then
        match ex migration.upgrade db.schema with
        | none => ([migration.upgrade], .error ())
        | some sch => ([migration.upgrade], .ok (⟨ins.1, sch⟩, true))
      else ([], .ok (db, false))
    | .downgrade =>
      let del := ledgerRemove db.ledger migration.id
      if 0 < del.2 then
        match ex migration.downgrade db.schema with
        | none => ([migration.downgrade], .error ())
        | some sch => ([migration.downgrade], .ok (⟨del.1, sch⟩, true))
      else ([], .ok (db, false))

/-! ## Synchronization -/

/-- Observable events of a synchronization run: the verbose callback's
`starting`/`finished`/`failed` notifications (with the migration identity
they carry) and every script submitted to `db.exec`. -/
inductive Event where
  | started (m : Migration) (mode : MigrationMode) (force : Bool)
  | executed (script : String)
  | finished (m : Migration) (mode : MigrationMode) (applied : Bool)
  | failed (m : Migration) (mode : MigrationMode)
deriving DecidableEq, Repr

/-- Errors that abort a synchronization run: a directory-read failure, or
a script-execution failure re-thrown out of `applyMigration`. -/
inductive SyncError where
  | dirError (e : ReadDirError)
  | applyError
deriving DecidableEq, Repr

/-- `type SynchronizeState` from `core.ts`. -/
structure SynchronizeState where
  before : MigrationState
  after : MigrationState
  changes : List (Migration × MigrationMode)
deriving DecidableEq, Repr

/-- `type SynchronizeOptions` from `core.ts`, with the defaults of
`DEFAULT_SYNCHRONIZE_OPTS` (the verbose logger is observed through the
event trace instead). -/
structure SyncOpts where
  abortOnUnexpected : Bool := true
  shouldApplyDowngrade : Migration → Bool := fun _ => true
  shouldApplyUpgrade : Migration → Bool := fun _ => true
  forceLatestIfSynchronized : Bool := false

/-- The full observable outcome of a run: event trace, final database
state of the connection, and the returned summary or thrown error. -/
structure SyncOutcome (σ : Type) where
  trace : List Event
  db : Db σ
  result : Except SyncError SynchronizeState
deriving DecidableEq

/-- Accumulator threaded through a run (the `changes` array and the
database handle of the source, plus the observed trace). -/
structure RunState (σ : Type) where
  db : Db σ
  trace : List Event
  changes : List (Migration × MigrationMode)
deriving DecidableEq

/-- The inner `apply` helper of `synchronizeMigrations`: log `starting`,
call `applyMigration`, log `failed` and re-throw, or log `finished`. -/
def syncApply {σ : Type} (ex : String → σ → Option σ) (s : RunState σ)
    (m : Migration) (mode : MigrationMode) (force : Bool) :
    Except (RunState σ) (RunState σ × Bool) :=
  match applyMigration ex s.db m mode force with
  | (scripts, .error _) =>
    .error { s with
      trace := s.trace ++ Event.started m mode force ::
        scripts.map Event.executed ++ [Event.failed m mode] }
  | (scripts, .ok (db', b)) =>
    .ok ({ s with
      db := db'
      trace := s.trace ++ Event.started m mode force ::
        scripts.map Event.executed ++ [Event.finished m mode b] }, b)

/-- One `forEach` loop of `synchronizeMigrations`: over each migration the
predicate approves, apply non-forced and record the successfully applied
ones in `changes`; a raised error aborts the loop. -/
def runPhase {σ : Type} (ex : String → σ → Option σ) (mode : MigrationMode)
    (pred : Migration → Bool) :
    List Migration → RunState σ → Except (RunState σ) (RunState σ)
  | [], s => .ok s
  | m :: rest, s =>
    if pred m then
      match syncApply ex s m mode false with
      | .error s' => .error s'
      | .ok (s', b) =>
        runPhase ex mode pred rest
          (if b then { s' with changes := s'.changes ++ [(m, mode)] } else s')
    else runPhase ex mode pred rest s

/-- `synchronizeMigrations` from `core.ts`.  The source guards each loop
with a `length > 0` check; iterating the empty list is the same, so the
guards are dropped.  The table name only selects the (single) modelled
table and is omitted. -/
def synchronizeMigrations {σ : Type} (ex : String → σ → Option σ) (db : Db σ)
    (dir : List (String × String)) (opts : SyncOpts) : SyncOutcome σ :=
  match readMigrationsDir dir with
  | .error e => ⟨[], db, .error (.dirError e)⟩
  | .ok expected =>
    let beforeState := compareMigrationState expected (readMigrationsTable db)
    let applyLatest := opts.forceLatestIfSynchronized &&
      !beforeState.shared.isEmpty && beforeState.missing.isEmpty &&
      beforeState.unexpected.isEmpty
    let summarize := fun (s : RunState σ) =>
      SynchronizeState.mk beforeState
        (compareMigrationState expected (readMigrationsTable s.db)) s.changes
    let s0 : RunState σ := ⟨db, [], []⟩
    if !beforeState.unexpected.isEmpty && opts.abortOnUnexpected then
      ⟨s0.trace, s0.db, .ok (summarize s0)⟩
    else
      match runPhase ex .downgrade opts.shouldApplyDowngrade
          beforeState.unexpected.reverse s0 with
      | .error s => ⟨s.trace, s.db, .error .applyError⟩
      | .ok s1 =>
        match runPhase ex .upgrade opts.shouldApplyUpgrade beforeState.missing s1 with
        | .error s => ⟨s.trace, s.db, .error .applyError⟩
        | .ok s2 =>
          if applyLatest then
            match beforeState.shared.getLast? with
            | some latest =>
              match syncApply ex s2 latest .upgrade true with
              | .error s => ⟨s.trace, s.db, .error .applyError⟩
              | .ok (s3, b) =>
                let s4 :=
                  if b then { s3 with changes := s3.changes ++ [(latest, .upgrade)] }
                  else s3
                ⟨s4.trace, s4.db, .ok (summarize s4)⟩
            | none => ⟨s2.trace, s2.db, .ok (summarize s2)⟩
          else ⟨s2.trace, s2.db, .ok (summarize s2)⟩

/-! ## Properties of the decimal rendering -/

theorem stringExt {a b : String} (h : a.data = b.data) : a = b := by
  cases a; cases b; exact congrArg String.mk h

theorem natChars_fuel {n f1 f2 : Nat} (h1 : n < f1) (h2 : n < f2) :
    natChars f1 n = natChars f2 n := by
  induction n using Nat.strong_induction_on generalizing f1 f2 with
  | _ n ih =>
    match f1, f2 with
    | g1 + 1, g2 + 1 =>
      by_cases hlt : n < 10
      · simp [natChars, hlt]
      · have hn : 0 < n := by omega
        have hdiv : n / 10 < n := Nat.div_lt_self hn (by omega)
        have e1 : natChars (g1 + 1) n = natChars g1 (n / 10) ++ [digitOf (n % 10)] := by
          simp [natChars, hlt]
        have e2 : natChars (g2 + 1) n = natChars g2 (n / 10) ++ [digitOf (n % 10)] := by
          simp [natChars, hlt]
        rw [e1, e2,
          ih (n / 10) hdiv (show n / 10 < g1 by omega) (show n / 10 < g2 by omega)]

theorem natChars_eq (n : Nat) :
    natChars (n + 1) n =
      if n < 10 then [digitOf n]
      else natChars (n / 10 + 1) (n / 10) ++ [digitOf (n % 10)] := by
  rw [show natChars (n + 1) n =
      if n < 10 then [digitOf n] else natChars n (n / 10) ++ [digitOf (n % 10)] from rfl]
  by_cases hlt : n < 10
  · simp [hlt]
  · have hdiv : n / 10 < n := Nat.div_lt_self (by omega) (by omega)
    simp only [hlt, if_false]
    rw [natChars_fuel (show n / 10 < n by omega) (Nat.lt_succ_self _)]

theorem natChars_ne_nil (n : Nat) : natChars (n + 1) n ≠ [] := by
  rw [natChars_eq]
  by_cases hlt : n < 10 <;> simp [hlt]

theorem digitOf_isDigit {d : Nat} (h : d < 10) : (digitOf d).isDigit := by
  interval_cases d <;> decide

theorem digitOf_inj {d1 d2 : Nat} (h1 : d1 < 10) (h2 : d2 < 10)
    (h : digitOf d1 = digitOf d2) : d1 = d2 := by
  interval_cases d1 <;> interval_cases d2 <;> revert h <;> decide

theorem natChars_isDigit (n : Nat) : ∀ c ∈ natChars (n + 1) n, c.isDigit := by
  induction n using Nat.strong_induction_on with
  | _ n ih =>
    rw [natChars_eq]
    by_cases hlt : n < 10
    · simp only [hlt, if_true, List.mem_singleton]
      rintro c rfl
      exact digitOf_isDigit hlt
    · have hdiv : n / 10 < n := Nat.div_lt_self (by omega) (by omega)
      simp only [hlt, if_false, List.mem_append, List.mem_singleton]
      rintro c (hc | rfl)
      · exact ih (n / 10) hdiv c hc
      · exact digitOf_isDigit (Nat.mod_lt _ (by omega))

theorem natStr_isDigit (n : Nat) : ∀ c ∈ (natStr n).data, c.isDigit :=
  natChars_isDigit n

theorem natStr_no_newline (n : Nat) : '\n' ∉ (natStr n).data := by
  intro h
  exact absurd (natStr_isDigit n _ h) (by decide)

theorem natStr_inj {a b : Nat} (h : natStr a = natStr b) : a = b := by
  have hd : natChars (a + 1) a = natChars (b + 1) b := congrArg String.data h
  clear h
  induction a using Nat.strong_induction_on generalizing b with
  | _ a ih =>
    rw [natChars_eq] at hd
    rw [natChars_eq b] at hd
    by_cases ha : a < 10 <;> by_cases hb : b < 10
    · simp only [ha, hb, if_true, List.cons.injEq] at hd
      exact digitOf_inj ha hb hd.1
    · exfalso
      simp only [ha, hb, if_true, if_false] at hd
      have := congrArg List.length hd
      have hne := natChars_ne_nil (b / 10)
      simp [List.length_append] at this
      cases hx : natChars (b / 10 + 1) (b / 10) with
      | nil => exact hne hx
      | cons y ys => rw [hx] at this; simp at this
    · exfalso
      simp only [ha, hb, if_true, if_false] at hd
      have := congrArg List.length hd
      have hne := natChars_ne_nil (a / 10)
      simp [List.length_append] at this
      cases hx : natChars (a / 10 + 1) (a / 10) with
      | nil => exact hne hx
      | cons y ys => rw [hx] at this; simp at this
    · simp only [ha, hb, if_false] at hd
      obtain ⟨h1, h2⟩ := List.append_inj' hd rfl
      have hda : a / 10 < a := Nat.div_lt_self (by omega) (by omega)
      have e1 : a / 10 = b / 10 := ih (a / 10) hda h1
      have e2 : a % 10 = b % 10 :=
        digitOf_inj (Nat.mod_lt _ (by omega)) (Nat.mod_lt _ (by omega)) (by simpa using h2)
      omega

/-! ## Properties of the canonical fingerprint -/

theorem nl_split :
    ∀ {a c b d : List Char}, '\n' ∉ a → '\n' ∉ c →
      a ++ '\n' :: b = c ++ '\n' :: d → a = c ∧ b = d := by
  intro a
  induction a with
  | nil =>
    intro c b d _ hc h
    cases c with
    | nil => simpa using h
    | cons y ys =>
      exfalso
      simp only [List.nil_append, List.cons_append, List.cons.injEq] at h
      exact hc (h.1 ▸ List.mem_cons_self y ys)
  | cons x xs ih =>
    intro c b d ha hc h
    cases c with
    | nil =>
      exfalso
      simp only [List.cons_append, List.nil_append, List.cons.injEq] at h
      exact ha (h.1 ▸ List.mem_cons_self x xs)
    | cons y ys =>
      simp only [List.cons_append, List.cons.injEq] at h
      obtain ⟨rfl, h2⟩ := h
      have ha' : '\n' ∉ xs := fun hm => ha (List.mem_cons_of_mem _ hm)
      have hc' : '\n' ∉ ys := fun hm => hc (List.mem_cons_of_mem _ hm)
      obtain ⟨e1, e2⟩ := ih ha' hc' h2
      exact ⟨by rw [e1], e2⟩

theorem no_nl_append {a b : List Char} (ha : '\n' ∉ a) (hb : '\n' ∉ b) :
    '\n' ∉ a ++ b := by
  simp only [List.mem_append]
  tauto

theorem canonicalId_data (m : Migration) :
    (canonicalId m).data =
      ("id:".data ++ (natStr m.id).data) ++ '\n' ::
        (("name:".data ++ (jsTrim m.name).data) ++ '\n' ::
          (("upgrade:".data ++ (jsTrim m.upgrade).data) ++ '\n' ::
            ("downgrade:".data ++ (jsTrim m.downgrade).data))) := by
  have h1 : ("\nname:" : String).data = '\n' :: ("name:" : String).data := rfl
  have h2 : ("\nupgrade:" : String).data = '\n' :: ("upgrade:" : String).data := rfl
  have h3 : ("\ndowngrade:" : String).data = '\n' :: ("downgrade:" : String).data := rfl
  simp only [canonicalId, String.data_append, h1, h2, h3, List.append_assoc,
    List.cons_append]

/-- Equal fingerprints force equal ids, unconditionally: the id line of the
pre-image consists of digits only, so it is recovered exactly. -/
theorem canonicalId_eq_id {m1 m2 : Migration}
    (h : canonicalId m1 = canonicalId m2) : m1.id = m2.id := by
  have hd := congrArg String.data h
  rw [canonicalId_data, canonicalId_data] at hd
  obtain ⟨e1, -⟩ :=
    nl_split (no_nl_append (by decide) (natStr_no_newline _))
      (no_nl_append (by decide) (natStr_no_newline _)) hd
  exact natStr_inj (stringExt (List.append_cancel_left e1))

/-- Full recovery of the four fields from the fingerprint, provided the
trimmed name and trimmed upgrade contain no embedded newline (the field
labels are then unambiguous). -/
theorem canonicalId_inj_parts {m1 m2 : Migration}
    (hn1 : '\n' ∉ (jsTrim m1.name).data) (hu1 : '\n' ∉ (jsTrim m1.upgrade).data)
    (hn2 : '\n' ∉ (jsTrim m2.name).data) (hu2 : '\n' ∉ (jsTrim m2.upgrade).data)
    (h : canonicalId m1 = canonicalId m2) :
    m1.id = m2.id ∧ jsTrim m1.name = jsTrim m2.name ∧
      jsTrim m1.upgrade = jsTrim m2.upgrade ∧
      jsTrim m1.downgrade = jsTrim m2.downgrade := by
  have hd := congrArg String.data h
  rw [canonicalId_data, canonicalId_data] at hd
  obtain ⟨e1, rest1⟩ :=
    nl_split (no_nl_append (by decide) (natStr_no_newline _))
      (no_nl_append (by decide) (natStr_no_newline _)) hd
  obtain ⟨e2, rest2⟩ :=
    nl_split (no_nl_append (by decide) hn1) (no_nl_append (by decide) hn2) rest1
  obtain ⟨e3, e4⟩ :=
    nl_split (no_nl_append (by decide) hu1) (no_nl_append (by decide) hu2) rest2
  exact ⟨natStr_inj (stringExt (List.append_cancel_left e1)),
    stringExt (List.append_cancel_left e2),
    stringExt (List.append_cancel_left e3),
    stringExt (List.append_cancel_left e4)⟩

/-- Agreement on the four canonicalized fields gives equal fingerprints. -/
theorem canonicalId_congr {m1 m2 : Migration} (hid : m1.id = m2.id)
    (hn : jsTrim m1.name = jsTrim m2.name)
    (hu : jsTrim m1.upgrade = jsTrim m2.upgrade)
    (hd : jsTrim m1.downgrade = jsTrim m2.downgrade) :
    canonicalId m1 = canonicalId m2 := by
  simp [canonicalId, hid, hn, hu, hd]

/-! ## Properties of the object model -/

theorem jsObjInsert_mem {o : List (String × Migration)} {k : String} {v : Migration}
    {p : String × Migration} (h : p ∈ jsObjInsert o k v) : p = (k, v) ∨ p ∈ o := by
  unfold jsObjInsert at h
  by_cases hc : (o.any (fun q => q.1 = k)) = true
  · rw [if_pos hc] at h
    simp only [List.mem_map] at h
    obtain ⟨q, hq, hqe⟩ := h
    by_cases hk : q.1 = k
    · simp only [hk, if_true] at hqe
      exact Or.inl hqe.symm
    · simp only [hk, if_false] at hqe
      exact Or.inr (hqe ▸ hq)
  · rw [if_neg hc] at h
    simp only [List.mem_append, List.mem_singleton] at h
    tauto

theorem hasKey_iff {o : List (String × Migration)} {k : String} :
    hasKey o k = true ↔ k ∈ o.map Prod.fst := by
  simp [hasKey, List.any_eq_true, List.mem_map]

theorem jsObjInsert_keys_mem {o : List (String × Migration)} {k k' : String}
    {v : Migration} :
    k ∈ (jsObjInsert o k' v).map Prod.fst ↔ k ∈ o.map Prod.fst ∨ k = k' := by
  unfold jsObjInsert
  by_cases hc : (o.any (fun q => q.1 = k')) = true
  · rw [if_pos hc]
    simp only [List.map_map, List.mem_map, Function.comp]
    constructor
    · rintro ⟨q, hq, hqe⟩
      by_cases hk : q.1 = k'
      · simp only [hk, if_true] at hqe
        exact Or.inr hqe.symm
      · simp only [hk, if_false] at hqe
        exact Or.inl ⟨q, hq, hqe⟩
    · rintro (⟨q, hq, rfl⟩ | rfl)
      · by_cases hk : q.1 = k'
        · exact ⟨q, hq, by simp [hk]⟩
        · exact ⟨q, hq, by simp [hk]⟩
      · rw [List.any_eq_true] at hc
        obtain ⟨q, hq, hqe⟩ := hc
        rw [decide_eq_true_eq] at hqe
        exact ⟨q, hq, by simp [hqe]⟩
  · rw [if_neg hc]
    simp only [List.map_append, List.mem_append]
    simp

theorem index_foldl_mem (f : Migration → String) :
    ∀ (l : List Migration) (o : List (String × Migration))
      (p : String × Migration),
      p ∈ l.foldl (fun o v => jsObjInsert o (f v) v) o →
      p ∈ o ∨ (p.2 ∈ l ∧ f p.2 = p.1) := by
  intro l
  induction l with
  | nil => intro o p h; exact Or.inl h
  | cons v l' ih =>
    intro o p h
    rcases ih (jsObjInsert o (f v) v) p h with h1 | h2
    · rcases jsObjInsert_mem h1 with rfl | h3
      · exact Or.inr ⟨List.mem_cons_self _ _, rfl⟩
      · exact Or.inl h3
    · exact Or.inr ⟨List.mem_cons_of_mem _ h2.1, h2.2⟩

/-- Every entry of `index l f` is a member of `l`, stored at its own key. -/
theorem index_mem {f : Migration → String} {l : List Migration}
    {p : String × Migration} (h : p ∈ index l f) : p.2 ∈ l ∧ f p.2 = p.1 := by
  rcases index_foldl_mem f l [] p h with h1 | h2
  · cases h1
  · exact h2

theorem index_foldl_keys (f : Migration → String) :
    ∀ (l : List Migration) (o : List (String × Migration)) (k : String),
      (k ∈ (l.foldl (fun o v => jsObjInsert o (f v) v) o).map Prod.fst) ↔
        k ∈ o.map Prod.fst ∨ k ∈ l.map f := by
  intro l
  induction l with
  | nil => simp
  | cons v l' ih =>
    intro o k
    rw [List.foldl_cons, ih, jsObjInsert_keys_mem]
    simp only [List.map_cons, List.mem_cons]
    tauto

/-- The keys of `index l f` are exactly the values `f` takes on `l`. -/
theorem index_keys {f : Migration → String} {l : List Migration} {k : String} :
    k ∈ (index l f).map Prod.fst ↔ k ∈ l.map f := by
  rw [index, index_foldl_keys]
  simp

theorem jsObjInsert_keys_nodup {o : List (String × Migration)} {k : String}
    {v : Migration} (h : (o.map Prod.fst).Nodup) :
    ((jsObjInsert o k v).map Prod.fst).Nodup := by
  unfold jsObjInsert
  by_cases hc : (o.any (fun q => q.1 = k)) = true
  · rw [if_pos hc]
    have heq : (o.map (fun p => if p.1 = k then (k, v) else p)).map Prod.fst =
        o.map Prod.fst := by
      rw [List.map_map]
      apply List.map_congr_left
      intro p _
      by_cases hk : p.1 = k <;> simp [hk]
    rw [heq]
    exact h
  · rw [if_neg hc]
    rw [List.map_append]
    apply List.Nodup.append h (by simp)
    intro a ha hb
    simp only [List.map_cons, List.map_nil, List.mem_singleton] at hb
    subst hb
    rw [List.any_eq_true] at hc
    apply hc
    simp only [List.mem_map] at ha
    obtain ⟨p, hp, hpk⟩ := ha
    exact ⟨p, hp, by simp [hpk]⟩

theorem index_keys_nodup {f : Migration → String} {l : List Migration} :
    ((index l f).map Prod.fst).Nodup := by
  rw [index]
  have haux : ∀ (l' : List Migration) (o : List (String × Migration)),
      (o.map Prod.fst).Nodup →
      ((l'.foldl (fun o v => jsObjInsert o (f v) v) o).map Prod.fst).Nodup := by
    intro l'
    induction l' with
    | nil => intro o h; exact h
    | cons v ls ih => intro o h; exact ih _ (jsObjInsert_keys_nodup h)
  exact haux l [] (by simp)

theorem valuesByKeyPred_mem {o : List (String × Migration)} {pred : String → Bool}
    {v : Migration} :
    v ∈ valuesByKeyPred o pred ↔ ∃ k, (k, v) ∈ o ∧ pred k := by
  simp only [valuesByKeyPred, List.mem_map, List.mem_filter]
  constructor
  · rintro ⟨p, ⟨hp, hpred⟩, rfl⟩
    exact ⟨p.1, hp, hpred⟩
  · rintro ⟨k, hk, hpred⟩
    exact ⟨(k, v), ⟨hk, hpred⟩, rfl⟩

/-! ## Properties of the sort -/

theorem insertByKey_perm {α : Type} (key : α → Nat) (a : α) :
    ∀ l : List α, List.Perm (insertByKey key a l) (a :: l)
  | [] => List.Perm.refl _
  | x :: xs => by
    unfold insertByKey
    by_cases h : key a < key x
    · rw [if_pos h]
    · rw [if_neg h]
      exact ((insertByKey_perm key a xs).cons x).trans (List.Perm.swap a x xs)

theorem sortByKey_perm {α : Type} (key : α → Nat) :
    ∀ l : List α, List.Perm (sortByKey key l) l
  | [] => List.Perm.refl _
  | x :: xs =>
    (insertByKey_perm key x (sortByKey key xs)).trans
      ((sortByKey_perm key xs).cons x)

theorem sortByKey_mem {α : Type} {key : α → Nat} {a : α} {l : List α} :
    a ∈ sortByKey key l ↔ a ∈ l :=
  (sortByKey_perm key l).mem_iff

theorem insertByKey_mem {α : Type} {key : α → Nat} {a b : α} {l : List α} :
    b ∈ insertByKey key a l ↔ b = a ∨ b ∈ l := by
  rw [(insertByKey_perm key a l).mem_iff, List.mem_cons]

theorem insertByKey_sorted {α : Type} (key : α → Nat) (a : α) {l : List α}
    (h : l.Pairwise (fun x y => key x ≤ key y)) :
    (insertByKey key a l).Pairwise (fun x y => key x ≤ key y) := by
  induction l with
  | nil => simp [insertByKey]
  | cons x xs ih =>
    rw [List.pairwise_cons] at h
    obtain ⟨hx, hxs⟩ := h
    unfold insertByKey
    by_cases hlt : key a < key x
    · rw [if_pos hlt]
      refine List.Pairwise.cons ?_ (List.Pairwise.cons hx hxs)
      intro b hb
      rcases List.mem_cons.mp hb with rfl | hb2
      · omega
      · have := hx b hb2
        omega
    · rw [if_neg hlt]
      refine List.Pairwise.cons ?_ (ih hxs)
      intro b hb
      rcases insertByKey_mem.mp hb with rfl | hb2
      · omega
      · exact hx b hb2

theorem sortByKey_sorted {α : Type} (key : α → Nat) :
    ∀ l : List α, (sortByKey key l).Pairwise (fun x y => key x ≤ key y)
  | [] => by simp [sortByKey]
  | x :: xs => insertByKey_sorted key x (sortByKey_sorted key xs)

/-! ## Properties of the three-way diff -/

theorem cmp_shared_def (e a : List Migration) :
    (compareMigrationState e a).shared =
      sortByKey Migration.id
        (valuesByKeyPred (index e canonicalId)
          (fun id => hasKey (index a canonicalId) id)) := rfl

theorem cmp_missing_def (e a : List Migration) :
    (compareMigrationState e a).missing =
      sortByKey Migration.id
        (valuesByKeyPred (index e canonicalId)
          (fun id => !hasKey (index a canonicalId) id)) := rfl

theorem cmp_unexpected_def (e a : List Migration) :
    (compareMigrationState e a).unexpected =
      sortByKey Migration.id
        (valuesByKeyPred (index a canonicalId)
          (fun id => !hasKey (index e canonicalId) id)) := rfl

/-- Elements of `shared` are expected migrations whose fingerprint is also
applied. -/
theorem mem_shared_inv {e a : List Migration} {v : Migration}
    (h : v ∈ (compareMigrationState e a).shared) :
    v ∈ e ∧ canonicalId v ∈ a.map canonicalId := by
  rw [cmp_shared_def, sortByKey_mem, valuesByKeyPred_mem] at h
  obtain ⟨k, hk, hpred⟩ := h
  obtain ⟨hmem, hkey⟩ := index_mem hk
  refine ⟨hmem, ?_⟩
  rw [← index_keys]
  exact hkey ▸ hasKey_iff.mp hpred

/-- Elements of `missing` are expected migrations whose fingerprint is not
applied. -/
theorem mem_missing_inv {e a : List Migration} {v : Migration}
    (h : v ∈ (compareMigrationState e a).missing) :
    v ∈ e ∧ canonicalId v ∉ a.map canonicalId := by
  rw [cmp_missing_def, sortByKey_mem, valuesByKeyPred_mem] at h
  obtain ⟨k, hk, hpred⟩ := h
  obtain ⟨hmem, hkey⟩ := index_mem hk
  refine ⟨hmem, fun hin => ?_⟩
  rw [← index_keys, ← hasKey_iff] at hin
  rw [hkey] at hin
  simp [hin] at hpred

/-- Elements of `unexpected` are applied migrations whose fingerprint is
not expected. -/
theorem mem_unexpected_inv {e a : List Migration} {v : Migration}
    (h : v ∈ (compareMigrationState e a).unexpected) :
    v ∈ a ∧ canonicalId v ∉ e.map canonicalId := by
  rw [cmp_unexpected_def, sortByKey_mem, valuesByKeyPred_mem] at h
  obtain ⟨k, hk, hpred⟩ := h
  obtain ⟨hmem, hkey⟩ := index_mem hk
  refine ⟨hmem, fun hin => ?_⟩
  rw [← index_keys, ← hasKey_iff] at hin
  rw [hkey] at hin
  simp [hin] at hpred

/-- Fingerprint-level characterization of `shared`. -/
theorem fps_shared_iff {e a : List Migration} {f : String} :
    f ∈ (compareMigrationState e a).shared.map canonicalId ↔
      f ∈ e.map canonicalId ∧ f ∈ a.map canonicalId := by
  constructor
  · intro h
    obtain ⟨v, hv, rfl⟩ := List.mem_map.mp h
    obtain ⟨h1, h2⟩ := mem_shared_inv hv
    exact ⟨List.mem_map_of_mem _ h1, h2⟩
  · rintro ⟨he, ha⟩
    rw [← index_keys] at he
    obtain ⟨p, hp, hpk⟩ := List.mem_map.mp he
    have hfp := (index_mem hp).2
    apply List.mem_map.mpr
    refine ⟨p.2, ?_, by rw [hfp, hpk]⟩
    rw [cmp_shared_def, sortByKey_mem, valuesByKeyPred_mem]
    refine ⟨p.1, by rw [Prod.mk.eta]; exact hp, ?_⟩
    rw [hpk, hasKey_iff, index_keys]
    exact ha

/-- Fingerprint-level characterization of `missing`. -/
theorem fps_missing_iff {e a : List Migration} {f : String} :
    f ∈ (compareMigrationState e a).missing.map canonicalId ↔
      f ∈ e.map canonicalId ∧ f ∉ a.map canonicalId := by
  constructor
  · intro h
    obtain ⟨v, hv, rfl⟩ := List.mem_map.mp h
    obtain ⟨h1, h2⟩ := mem_missing_inv hv
    exact ⟨List.mem_map_of_mem _ h1, h2⟩
  · rintro ⟨he, ha⟩
    rw [← index_keys] at he
    obtain ⟨p, hp, hpk⟩ := List.mem_map.mp he
    have hfp := (index_mem hp).2
    apply List.mem_map.mpr
    refine ⟨p.2, ?_, by rw [hfp, hpk]⟩
    rw [cmp_missing_def, sortByKey_mem, valuesByKeyPred_mem]
    refine ⟨p.1, by rw [Prod.mk.eta]; exact hp, ?_⟩
    have : hasKey (index a canonicalId) p.1 = false := by
      rw [← Bool.not_eq_true, hasKey_iff, index_keys, hpk]
      exact ha
    simp [this]

/-- Fingerprint-level characterization of `unexpected`. -/
theorem fps_unexpected_iff {e a : List Migration} {f : String} :
    f ∈ (compareMigrationState e a).unexpected.map canonicalId ↔
      f ∈ a.map canonicalId ∧ f ∉ e.map canonicalId := by
  constructor
  · intro h
    obtain ⟨v, hv, rfl⟩ := List.mem_map.mp h
    obtain ⟨h1, h2⟩ := mem_unexpected_inv hv
    exact ⟨List.mem_map_of_mem _ h1, h2⟩
  · rintro ⟨ha, he⟩
    rw [← index_keys] at ha
    obtain ⟨p, hp, hpk⟩ := List.mem_map.mp ha
    have hfp := (index_mem hp).2
    apply List.mem_map.mpr
    refine ⟨p.2, ?_, by rw [hfp, hpk]⟩
    rw [cmp_unexpected_def, sortByKey_mem, valuesByKeyPred_mem]
    refine ⟨p.1, by rw [Prod.mk.eta]; exact hp, ?_⟩
    have : hasKey (index e canonicalId) p.1 = false := by
      rw [← Bool.not_eq_true, hasKey_iff, index_keys, hpk]
      exact he
    simp [this]

/-- The values selected from an `index` object carry pairwise distinct
fingerprints (one value per key). -/
theorem sorted_values_fps_nodup (l : List Migration) (pred : String → Bool) :
    ((sortByKey Migration.id
        (valuesByKeyPred (index l canonicalId) pred)).map canonicalId).Nodup := by
  have hperm :=
    (sortByKey_perm Migration.id
      (valuesByKeyPred (index l canonicalId) pred)).map canonicalId
  rw [hperm.nodup_iff]
  have hmap : (valuesByKeyPred (index l canonicalId) pred).map canonicalId =
      ((index l canonicalId).filter (fun p => pred p.1)).map Prod.fst := by
    rw [valuesByKeyPred, List.map_map]
    apply List.map_congr_left
    intro p hp
    have := (index_mem (List.mem_filter.mp hp).1).2
    simpa [Function.comp] using this
  rw [hmap]
  exact List.Nodup.sublist ((List.filter_sublist _).map Prod.fst) index_keys_nodup

theorem cmp_shared_sorted (e a : List Migration) :
    (compareMigrationState e a).shared.Pairwise (fun x y => x.id ≤ y.id) := by
  rw [cmp_shared_def]
  exact sortByKey_sorted _ _

theorem cmp_missing_sorted (e a : List Migration) :
    (compareMigrationState e a).missing.Pairwise (fun x y => x.id ≤ y.id) := by
  rw [cmp_missing_def]
  exact sortByKey_sorted _ _

theorem cmp_unexpected_sorted (e a : List Migration) :
    (compareMigrationState e a).unexpected.Pairwise (fun x y => x.id ≤ y.id) := by
  rw [cmp_unexpected_def]
  exact sortByKey_sorted _ _

theorem cmp_missing_fps_nodup (e a : List Migration) :
    ((compareMigrationState e a).missing.map canonicalId).Nodup := by
  rw [cmp_missing_def]
  exact sorted_values_fps_nodup _ _

theorem cmp_unexpected_fps_nodup (e a : List Migration) :
    ((compareMigrationState e a).unexpected.map canonicalId).Nodup := by
  rw [cmp_unexpected_def]
  exact sorted_values_fps_nodup _ _

/-- An id-sorted, duplicate-free selection from a source with unique ids is
strictly ascending. -/
theorem strict_of_sorted_nodup {l src : List Migration}
    (hl : l.Pairwise (fun x y => x.id ≤ y.id)) (hsub : ∀ v ∈ l, v ∈ src)
    (hsrc : (src.map Migration.id).Nodup) (hnd : l.Nodup) :
    l.Pairwise (fun x y => x.id < y.id) := by
  have hinj := List.inj_on_of_nodup_map hsrc
  have hne : l.Pairwise (fun x y => x ≠ y) := hnd
  refine (hl.and hne).imp_of_mem ?_
  intro x y hx hy h
  rcases Nat.lt_or_ge x.id y.id with hlt | hge
  · exact hlt
  · exact absurd (hinj (hsub x hx) (hsub y hy) (Nat.le_antisymm h.1 hge)) h.2

theorem cmp_missing_strict {e a : List Migration}
    (he : (e.map Migration.id).Nodup) :
    (compareMigrationState e a).missing.Pairwise (fun x y => x.id < y.id) :=
  strict_of_sorted_nodup (cmp_missing_sorted e a)
    (fun _ hv => (mem_missing_inv hv).1) he
    (List.Nodup.of_map canonicalId (cmp_missing_fps_nodup e a))

theorem cmp_unexpected_strict {e a : List Migration}
    (ha : (a.map Migration.id).Nodup) :
    (compareMigrationState e a).unexpected.Pairwise (fun x y => x.id < y.id) :=
  strict_of_sorted_nodup (cmp_unexpected_sorted e a)
    (fun _ hv => (mem_unexpected_inv hv).1) ha
    (List.Nodup.of_map canonicalId (cmp_unexpected_fps_nodup e a))

/-! ## Properties of the directory read -/

theorem countId_eq (ms : List Migration) (i : Nat) :
    countId ms i = (ms.map Migration.id).count i := by
  rw [countId, List.count, List.countP_map, ← List.countP_eq_length_filter]
  apply List.countP_congr
  intro m _
  by_cases h : m.id = i <;> simp [h, Function.comp]

theorem dupIds_mem_iff {ms : List Migration} {i : Nat} :
    i ∈ dupIds ms ↔ 2 ≤ countId ms i := by
  rw [dupIds, sortByKey_mem, List.mem_filter]
  constructor
  · rintro ⟨-, hcnt⟩
    simpa using hcnt
  · intro hcnt
    refine ⟨List.mem_dedup.mpr ?_, by simpa using hcnt⟩
    rw [countId_eq] at hcnt
    exact List.count_pos_iff.mp (by omega)

/-- A successful directory read has pairwise distinct ids (the duplicate
check passed). -/
theorem readMigrationsDir_ok_nodup {dir : List (String × String)}
    {ms : List Migration} (h : readMigrationsDir dir = .ok ms) :
    (ms.map Migration.id).Nodup := by
  unfold readMigrationsDir at h
  cases hcm : collectMigrations dir with
  | error e => rw [hcm] at h; cases h
  | ok ms' =>
    rw [hcm] at h
    dsimp only at h
    by_cases hdup : (dupIds ms').isEmpty = true
    · rw [if_pos hdup] at h
      cases h
      by_contra hnotnodup
      obtain ⟨i, hidup⟩ := List.exists_duplicate_iff_not_nodup.mpr hnotnodup
      have hcount := List.duplicate_iff_two_le_count.mp hidup
      rw [List.isEmpty_iff] at hdup
      have hmem : i ∈ dupIds ms := dupIds_mem_iff.mpr (by rw [countId_eq]; exact hcount)
      rw [hdup] at hmem
      cases hmem
    · rw [if_neg hdup] at h
      cases h

/-! ## Observations of a run -/

/-- The `applyMigration` invocations of a trace, in order: migration, mode
and force flag. -/
def attemptsOf (tr : List Event) : List (Migration × MigrationMode × Bool) :=
  tr.filterMap (fun e =>
    match e with
    | .started m mode force => some (m, mode, force)
    | _ => none)

/-- The successfully applied `(migration, mode)` pairs of a trace, in
order. -/
def successesOf (tr : List Event) : List (Migration × MigrationMode) :=
  tr.filterMap (fun e =>
    match e with
    | .finished m mode applied => if applied then some (m, mode) else none
    | _ => none)

/-- The scripts submitted to `db.exec`, in order. -/
def execsOf (tr : List Event) : List String :=
  tr.filterMap (fun e =>
    match e with
    | .executed s => some s
    | _ => none)

/-- Replay of one successful apply on the ledger rows. -/
def applyChange (l : List Migration) : Migration × MigrationMode → List Migration
  | (m, .upgrade) => (ledgerInsert l m).1
  | (m, .downgrade) => (ledgerRemove l m.id).1

/-! ## Characterization of `applyMigration` -/

theorem applyMigration_upgrade_nonforced {σ : Type} (ex : String → σ → Option σ)
    (db : Db σ) (m : Migration) :
    applyMigration ex db m .upgrade false =
      if hasId db.ledger m.id then ([], .ok (db, false))
      else
        match ex m.upgrade db.schema with
        | none => ([m.upgrade], .error ())
        | some sch => ([m.upgrade], .ok (⟨db.ledger ++ [m], sch⟩, true)) := by
  unfold applyMigration ledgerInsert
  by_cases h : hasId db.ledger m.id = true
  · simp [h]
  · rw [Bool.not_eq_true] at h
    simp [h]

theorem hasId_iff_exists {l : List Migration} {i : Nat} :
    hasId l i = true ↔ ∃ r ∈ l, r.id = i := by
  simp [hasId, List.any_eq_true]

theorem hasId_filter_pos {l : List Migration} {i : Nat} :
    hasId l i = true ↔ 0 < (l.filter (fun r => r.id = i)).length := by
  rw [← List.countP_eq_length_filter, List.countP_pos_iff, hasId_iff_exists]
  simp

theorem applyMigration_downgrade_nonforced {σ : Type} (ex : String → σ → Option σ)
    (db : Db σ) (m : Migration) :
    applyMigration ex db m .downgrade false =
      if hasId db.ledger m.id then
        match ex m.downgrade db.schema with
        | none => ([m.downgrade], .error ())
        | some sch =>
          ([m.downgrade], .ok (⟨db.ledger.filter (fun r => r.id ≠ m.id), sch⟩, true))
      else ([], .ok (db, false)) := by
  unfold applyMigration ledgerRemove
  by_cases h : hasId db.ledger m.id = true
  · rw [if_pos h]
    have hp := hasId_filter_pos.mp h
    simp only [hp, if_pos, if_true]
    cases ex m.downgrade db.schema <;> simp
  · rw [if_neg h]
    rw [Bool.not_eq_true] at h
    have hp : ¬ 0 < (db.ledger.filter (fun r => r.id = m.id)).length := by
      intro hc
      have hcontra := hasId_filter_pos.mpr hc
      rw [h] at hcontra
      cases hcontra
    simp [hp]

theorem applyMigration_upgrade_forced {σ : Type} (ex : String → σ → Option σ)
    (db : Db σ) (m : Migration) :
    applyMigration ex db m .upgrade true =
      match ex m.upgrade db.schema with
      | none => ([m.upgrade], .error ())
      | some sch =>
        ([m.upgrade], .ok (⟨(ledgerInsert db.ledger m).1, sch⟩, true)) := by
  unfold applyMigration
  cases ex m.upgrade db.schema <;> simp

theorem applyMigration_downgrade_forced {σ : Type} (ex : String → σ → Option σ)
    (db : Db σ) (m : Migration) :
    applyMigration ex db m .downgrade true =
      match ex m.downgrade db.schema with
      | none => ([m.downgrade], .error ())
      | some sch =>
        ([m.downgrade], .ok (⟨(ledgerRemove db.ledger m.id).1, sch⟩, true)) := by
  unfold applyMigration
  cases ex m.downgrade db.schema <;> simp

theorem attemptsOf_append (a b : List Event) :
    attemptsOf (a ++ b) = attemptsOf a ++ attemptsOf b :=
  List.filterMap_append a b _

theorem successesOf_append (a b : List Event) :
    successesOf (a ++ b) = successesOf a ++ successesOf b :=
  List.filterMap_append a b _

theorem execsOf_append (a b : List Event) :
    execsOf (a ++ b) = execsOf a ++ execsOf b :=
  List.filterMap_append a b _

theorem attemptsOf_executeds (scripts : List String) :
    attemptsOf (scripts.map Event.executed) = [] := by
  induction scripts with
  | nil => rfl
  | cons s ss ih => simp [attemptsOf, List.filterMap_cons] at ih ⊢

theorem successesOf_executeds (scripts : List String) :
    successesOf (scripts.map Event.executed) = [] := by
  induction scripts with
  | nil => rfl
  | cons s ss ih => simp [successesOf, List.filterMap_cons] at ih ⊢

theorem execsOf_executeds (scripts : List String) :
    execsOf (scripts.map Event.executed) = scripts := by
  induction scripts with
  | nil => rfl
  | cons s ss ih => simpa [execsOf, List.filterMap_cons] using ih

theorem attemptsOf_block (m : Migration) (mode : MigrationMode) (force : Bool)
    (scripts : List String) (last : Event)
    (hlast : attemptsOf [last] = []) :
    attemptsOf (Event.started m mode force :: scripts.map Event.executed ++ [last]) =
      [(m, mode, force)] := by
  rw [show Event.started m mode force :: scripts.map Event.executed ++ [last] =
    [Event.started m mode force] ++ scripts.map Event.executed ++ [last] from rfl]
  rw [attemptsOf_append, attemptsOf_append, attemptsOf_executeds, hlast]
  rfl

theorem successesOf_block_finished (m : Migration) (mode : MigrationMode)
    (force : Bool) (scripts : List String) (b : Bool) :
    successesOf (Event.started m mode force :: scripts.map Event.executed ++
        [Event.finished m mode b]) =
      if b then [(m, mode)] else [] := by
  rw [show Event.started m mode force :: scripts.map Event.executed ++
      [Event.finished m mode b] =
    [Event.started m mode force] ++ scripts.map Event.executed ++
      [Event.finished m mode b] from rfl]
  rw [successesOf_append, successesOf_append, successesOf_executeds]
  cases b <;> rfl

theorem execsOf_block (m : Migration) (mode : MigrationMode) (force : Bool)
    (scripts : List String) (last : Event) (hlast : execsOf [last] = []) :
    execsOf (Event.started m mode force :: scripts.map Event.executed ++ [last]) =
      scripts := by
  rw [show Event.started m mode force :: scripts.map Event.executed ++ [last] =
    [Event.started m mode force] ++ scripts.map Event.executed ++ [last] from rfl]
  rw [execsOf_append, execsOf_append, execsOf_executeds, hlast]
  simp [execsOf]

/-- A non-forced apply that reports `false` touched nothing and ran no
script. -/
theorem applyMigration_nonforced_false {σ : Type} {ex : String → σ → Option σ}
    {db : Db σ} {m : Migration} {mode : MigrationMode} {scripts : List String}
    {db' : Db σ}
    (h : applyMigration ex db m mode false = (scripts, .ok (db', false))) :
    db' = db ∧ scripts = [] := by
  cases mode
  · rw [applyMigration_upgrade_nonforced] at h
    by_cases hid : hasId db.ledger m.id = true
    · rw [if_pos hid] at h
      obtain ⟨h1, h2⟩ := Prod.mk.injEq .. ▸ h
      cases h2
      exact ⟨rfl, h1 ▸ rfl⟩
    · rw [if_neg hid] at h
      cases hex : ex m.upgrade db.schema <;> rw [hex] at h <;> cases h
  · rw [applyMigration_downgrade_nonforced] at h
    by_cases hid : hasId db.ledger m.id = true
    · rw [if_pos hid] at h
      cases hex : ex m.downgrade db.schema <;> rw [hex] at h <;> cases h
    · rw [if_neg hid] at h
      obtain ⟨h1, h2⟩ := Prod.mk.injEq .. ▸ h
      cases h2
      exact ⟨rfl, h1 ▸ rfl⟩

/-- A non-forced apply that reports `true` performed exactly the matching
ledger mutation. -/
theorem applyMigration_nonforced_true {σ : Type} {ex : String → σ → Option σ}
    {db : Db σ} {m : Migration} {mode : MigrationMode} {scripts : List String}
    {db' : Db σ}
    (h : applyMigration ex db m mode false = (scripts, .ok (db', true))) :
    db'.ledger = applyChange db.ledger (m, mode) ∧ scripts.length = 1 := by
  cases mode
  · rw [applyMigration_upgrade_nonforced] at h
    by_cases hid : hasId db.ledger m.id = true
    · rw [if_pos hid] at h
      cases h
    · rw [if_neg hid] at h
      cases hex : ex m.upgrade db.schema with
      | none => rw [hex] at h; cases h
      | some sch =>
        rw [hex] at h
        obtain ⟨-, h2⟩ := Prod.mk.injEq .. ▸ h
        obtain ⟨h1, -⟩ := Prod.mk.injEq .. ▸ h
        have hdb : db' = ⟨db.ledger ++ [m], sch⟩ := by
          cases h2
          rfl
        refine ⟨?_, by rw [← h1]; rfl⟩
        rw [hdb]
        show db.ledger ++ [m] = (ledgerInsert db.ledger m).1
        rw [ledgerInsert, if_neg hid]
  · rw [applyMigration_downgrade_nonforced] at h
    by_cases hid : hasId db.ledger m.id = true
    · rw [if_pos hid] at h
      cases hex : ex m.downgrade db.schema with
      | none => rw [hex] at h; cases h
      | some sch =>
        rw [hex] at h
        obtain ⟨-, h2⟩ := Prod.mk.injEq .. ▸ h
        obtain ⟨h1, -⟩ := Prod.mk.injEq .. ▸ h
        have hdb : db' = ⟨db.ledger.filter (fun r => r.id ≠ m.id), sch⟩ := by
          cases h2
          rfl
        refine ⟨?_, by rw [← h1]; rfl⟩
        rw [hdb]
        rfl
    · rw [if_neg hid] at h
      cases h

theorem syncApply_ok_inv {σ : Type} {ex : String → σ → Option σ}
    {s : RunState σ} {m : Migration} {mode : MigrationMode} {force : Bool}
    {s' : RunState σ} {b : Bool}
    (h : syncApply ex s m mode force = .ok (s', b)) :
    ∃ scripts db',
      applyMigration ex s.db m mode force = (scripts, .ok (db', b)) ∧
      s'.db = db' ∧ s'.changes = s.changes ∧
      s'.trace = s.trace ++ (Event.started m mode force ::
        scripts.map Event.executed ++ [Event.finished m mode b]) := by
  unfold syncApply at h
  cases happ : applyMigration ex s.db m mode force with
  | mk scripts res =>
    rw [happ] at h
    cases res with
    | error u =>
      dsimp only at h
      cases h
    | ok p =>
      obtain ⟨db', b'⟩ := p
      dsimp only at h
      cases h
      exact ⟨scripts, db', rfl, rfl, rfl, by simp⟩

theorem syncApply_error_inv {σ : Type} {ex : String → σ → Option σ}
    {s : RunState σ} {m : Migration} {mode : MigrationMode} {force : Bool}
    {s' : RunState σ}
    (h : syncApply ex s m mode force = .error s') :
    ∃ scripts,
      applyMigration ex s.db m mode force = (scripts, .error ()) ∧
      s'.db = s.db ∧ s'.changes = s.changes ∧
      s'.trace = s.trace ++ (Event.started m mode force ::
        scripts.map Event.executed ++ [Event.failed m mode]) := by
  unfold syncApply at h
  cases happ : applyMigration ex s.db m mode force with
  | mk scripts res =>
    rw [happ] at h
    cases res with
    | error u =>
      dsimp only at h
      cases h
      cases u
      exact ⟨scripts, rfl, rfl, rfl, by simp⟩
    | ok p =>
      obtain ⟨db', b'⟩ := p
      dsimp only at h
      cases h

theorem runPhase_nil {σ : Type} (ex : String → σ → Option σ)
    (mode : MigrationMode) (pred : Migration → Bool) (s : RunState σ) :
    runPhase ex mode pred [] s = .ok s := rfl

theorem runPhase_cons {σ : Type} (ex : String → σ → Option σ)
    (mode : MigrationMode) (pred : Migration → Bool) (m : Migration)
    (rest : List Migration) (s : RunState σ) :
    runPhase ex mode pred (m :: rest) s =
      if pred m then
        match syncApply ex s m mode false with
        | .error s' => .error s'
        | .ok (s', b) =>
          runPhase ex mode pred rest
            (if b then { s' with changes := s'.changes ++ [(m, mode)] } else s')
      else runPhase ex mode pred rest s := rfl

/-- Invariant of one reconcile loop: the trace grows by one block per
approved migration, attempts follow the filtered list in order, `changes`
records exactly the successful applies, and the ledger is the replay of
those successes. -/
theorem runPhase_ok_inv {σ : Type} (ex : String → σ → Option σ)
    (mode : MigrationMode) (pred : Migration → Bool) (ms : List Migration) :
    ∀ (s s' : RunState σ),
      runPhase ex mode pred ms s = .ok s' →
      ∃ tr, s'.trace = s.trace ++ tr ∧
        attemptsOf tr = (ms.filter pred).map (fun m => (m, mode, false)) ∧
        s'.changes = s.changes ++ successesOf tr ∧
        (∀ p ∈ successesOf tr, p.2 = mode ∧ p.1 ∈ ms) ∧
        s'.db.ledger = (successesOf tr).foldl applyChange s.db.ledger ∧
        (successesOf tr = [] → s'.db = s.db) ∧
        (execsOf tr).length = (successesOf tr).length := by
  induction ms with
  | nil =>
    intro s s' h
    cases h
    exact ⟨[], (List.append_nil _).symm, rfl, (List.append_nil _).symm,
      by simp [successesOf], rfl, fun _ => rfl, rfl⟩
  | cons m rest ih =>
    intro s s' h
    rw [runPhase_cons] at h
    by_cases hp : pred m = true
    · rw [if_pos hp] at h
      cases hsa : syncApply ex s m mode false with
      | error s1 =>
        rw [hsa] at h
        cases h
      | ok p =>
        obtain ⟨s1, b⟩ := p
        rw [hsa] at h
        dsimp only at h
        obtain ⟨scripts, db', happ, hdb1, hch1, htr1⟩ := syncApply_ok_inv hsa
        cases b with
        | true =>
          rw [if_pos rfl] at h
          obtain ⟨tr, htr, hatt, hch, hmem, hldg, hemp, hlen⟩ := ih _ s' h
          obtain ⟨hld', hslen⟩ := applyMigration_nonforced_true happ
          have hsucc : successesOf (Event.started m mode false ::
              scripts.map Event.executed ++ [Event.finished m mode true]) =
              [(m, mode)] := by
            rw [successesOf_block_finished]
            simp
          refine ⟨(Event.started m mode false :: scripts.map Event.executed ++
            [Event.finished m mode true]) ++ tr, ?_, ?_, ?_, ?_, ?_, ?_, ?_⟩
          · rw [htr]
            show s1.trace ++ tr = _
            rw [htr1, List.append_assoc]
          · rw [attemptsOf_append,
              attemptsOf_block m mode false scripts (Event.finished m mode true) rfl,
              hatt, List.filter_cons, if_pos hp]
            rfl
          · rw [hch, successesOf_append, hsucc]
            show s1.changes ++ [(m, mode)] ++ successesOf tr = _
            rw [hch1, List.append_assoc]
          · rw [successesOf_append, hsucc]
            intro q hqmem
            rcases List.mem_append.mp hqmem with hin | hin
            · rcases List.mem_singleton.mp hin with rfl
              exact ⟨rfl, List.mem_cons_self _ _⟩
            · obtain ⟨h1, h2⟩ := hmem q hin
              exact ⟨h1, List.mem_cons_of_mem _ h2⟩
          · rw [hldg, successesOf_append, hsucc]
            show (successesOf tr).foldl applyChange s1.db.ledger = _
            rw [hdb1, hld']
            rfl
          · intro hcontra
            rw [successesOf_append, hsucc] at hcontra
            cases hcontra
          · rw [execsOf_append,
              execsOf_block m mode false scripts (Event.finished m mode true) rfl,
              successesOf_append, hsucc]
            simp [hslen, hlen]
            omega
        | false =>
          rw [if_neg (by simp)] at h
          obtain ⟨hdbeq, hscr⟩ := applyMigration_nonforced_false happ
          obtain ⟨tr, htr, hatt, hch, hmem, hldg, hemp, hlen⟩ := ih s1 s' h
          have hsucc : successesOf (Event.started m mode false ::
              scripts.map Event.executed ++ [Event.finished m mode false]) =
              [] := by
            rw [successesOf_block_finished]
            simp
          refine ⟨(Event.started m mode false :: scripts.map Event.executed ++
            [Event.finished m mode false]) ++ tr, ?_, ?_, ?_, ?_, ?_, ?_, ?_⟩
          · rw [htr, htr1, List.append_assoc]
          · rw [attemptsOf_append,
              attemptsOf_block m mode false scripts (Event.finished m mode false) rfl,
              hatt, List.filter_cons, if_pos hp]
            rfl
          · rw [hch, hch1, successesOf_append, hsucc]
            rfl
          · rw [successesOf_append, hsucc]
            intro q hqmem
            rcases List.mem_append.mp hqmem with hin | hin
            · cases hin
            · obtain ⟨h1, h2⟩ := hmem q hin
              exact ⟨h1, List.mem_cons_of_mem _ h2⟩
          · rw [hldg, hdb1, hdbeq, successesOf_append, hsucc]
            rfl
          · intro hcontra
            rw [successesOf_append, hsucc, List.nil_append] at hcontra
            rw [hemp hcontra, hdb1, hdbeq]
          · rw [execsOf_append,
              execsOf_block m mode false scripts (Event.finished m mode false) rfl,
              successesOf_append, hsucc, hscr]
            simpa using hlen
    · rw [if_neg hp] at h
      obtain ⟨tr, htr, hatt, hch, hmem, hldg, hemp, hlen⟩ := ih s s' h
      have hpf : pred m = false := by rwa [Bool.not_eq_true] at hp
      refine ⟨tr, htr, ?_, hch, ?_, hldg, hemp, hlen⟩
      · rw [hatt, List.filter_cons, hpf]
        rfl
      · intro q hqmem
        obtain ⟨h1, h2⟩ := hmem q hqmem
        exact ⟨h1, List.mem_cons_of_mem _ h2⟩

theorem applyMigration_upgrade_true_extra {σ : Type} {ex : String → σ → Option σ}
    {db : Db σ} {m : Migration} {scripts : List String} {db' : Db σ}
    (h : applyMigration ex db m .upgrade false = (scripts, .ok (db', true))) :
    hasId db.ledger m.id = false ∧ db'.ledger = db.ledger ++ [m] := by
  rw [applyMigration_upgrade_nonforced] at h
  by_cases hid : hasId db.ledger m.id = true
  · rw [if_pos hid] at h
    cases h
  · rw [if_neg hid] at h
    cases hex : ex m.upgrade db.schema with
    | none => rw [hex] at h; cases h
    | some sch =>
      rw [hex] at h
      obtain ⟨-, h2⟩ := Prod.mk.injEq .. ▸ h
      refine ⟨by rwa [Bool.not_eq_true] at hid, ?_⟩
      cases h2
      rfl

theorem runPhase_down_facts {σ : Type} (ex : String → σ → Option σ)
    (pred : Migration → Bool) (ms : List Migration) :
    ∀ (s s' : RunState σ), runPhase ex .downgrade pred ms s = .ok s' →
      (∀ r ∈ s'.db.ledger, r ∈ s.db.ledger) ∧
      (∀ p ∈ s'.changes, p ∈ s.changes ∨
        (p.2 = .downgrade ∧ hasId s'.db.ledger p.1.id = false)) := by
  induction ms with
  | nil =>
    intro s s' h
    cases h
    exact ⟨fun r hr => hr, fun p hp => Or.inl hp⟩
  | cons m rest ih =>
    intro s s' h
    rw [runPhase_cons] at h
    by_cases hp : pred m = true
    · rw [if_pos hp] at h
      cases hsa : syncApply ex s m .downgrade false with
      | error s1 =>
        rw [hsa] at h
        cases h
      | ok p =>
        obtain ⟨s1, b⟩ := p
        rw [hsa] at h
        dsimp only at h
        obtain ⟨scripts, db', happ, hdb1, hch1, htr1⟩ := syncApply_ok_inv hsa
        cases b with
        | true =>
          rw [if_pos rfl] at h
          obtain ⟨hsub, hchf⟩ := ih _ s' h
          obtain ⟨hld', -⟩ := applyMigration_nonforced_true happ
          have hfilter : db'.ledger = s.db.ledger.filter (fun r => r.id ≠ m.id) :=
            hld'
          have hsub' : ∀ r ∈ s'.db.ledger, r ∈ s.db.ledger := by
            intro r hr
            have hr2 := hsub r hr
            show r ∈ s.db.ledger
            have : r ∈ db'.ledger := hdb1 ▸ hr2
            rw [hfilter] at this
            exact (List.mem_filter.mp this).1
          refine ⟨hsub', ?_⟩
          intro q hq
          rcases hchf q hq with hq1 | hq2
          · show q ∈ s.changes ∨ _
            have : q ∈ s1.changes ++ [(m, MigrationMode.downgrade)] := hq1
            rw [hch1] at this
            rcases List.mem_append.mp this with hin | hin
            · exact Or.inl hin
            · rcases List.mem_singleton.mp hin with rfl
              refine Or.inr ⟨rfl, ?_⟩
              rw [← Bool.not_eq_true]
              intro habs
              obtain ⟨r, hr, hrid⟩ := hasId_iff_exists.mp habs
              have := hsub r hr
              have hmem' : r ∈ db'.ledger := hdb1 ▸ this
              rw [hfilter] at hmem'
              have := (List.mem_filter.mp hmem').2
              simp [hrid] at this
          · exact Or.inr hq2
        | false =>
          rw [if_neg (by simp)] at h
          obtain ⟨hdbeq, -⟩ := applyMigration_nonforced_false happ
          obtain ⟨hsub, hchf⟩ := ih s1 s' h
          have hdbs : s1.db = s.db := hdb1.trans hdbeq
          refine ⟨fun r hr => hdbs ▸ hsub r hr, ?_⟩
          intro q hq
          rcases hchf q hq with hq1 | hq2
          · exact Or.inl (hch1 ▸ hq1)
          · exact Or.inr hq2
    · rw [if_neg hp] at h
      exact ih s s' h

theorem runPhase_up_facts {σ : Type} (ex : String → σ → Option σ)
    (pred : Migration → Bool) (ms : List Migration) :
    ∀ (s s' : RunState σ), runPhase ex .upgrade pred ms s = .ok s' →
      (∀ r ∈ s.db.ledger, r ∈ s'.db.ledger) ∧
      (∀ p ∈ s'.changes, p ∈ s.changes ∨
        (p.2 = .upgrade ∧ p.1 ∈ s'.db.ledger)) := by
  induction ms with
  | nil =>
    intro s s' h
    cases h
    exact ⟨fun r hr => hr, fun p hp => Or.inl hp⟩
  | cons m rest ih =>
    intro s s' h
    rw [runPhase_cons] at h
    by_cases hp : pred m = true
    · rw [if_pos hp] at h
      cases hsa : syncApply ex s m .upgrade false with
      | error s1 =>
        rw [hsa] at h
        cases h
      | ok p =>
        obtain ⟨s1, b⟩ := p
        rw [hsa] at h
        dsimp only at h
        obtain ⟨scripts, db', happ, hdb1, hch1, htr1⟩ := syncApply_ok_inv hsa
        cases b with
        | true =>
          rw [if_pos rfl] at h
          obtain ⟨hmono, hchf⟩ := ih _ s' h
          obtain ⟨-, hld'⟩ := applyMigration_upgrade_true_extra happ
          have hmono1 : ∀ r ∈ s.db.ledger, r ∈ s'.db.ledger := by
            intro r hr
            apply hmono r
            show r ∈ s1.db.ledger
            rw [hdb1, hld']
            exact List.mem_append_left _ hr
          refine ⟨hmono1, ?_⟩
          intro q hq
          rcases hchf q hq with hq1 | hq2
          · have : q ∈ s1.changes ++ [(m, MigrationMode.upgrade)] := hq1
            rw [hch1] at this
            rcases List.mem_append.mp this with hin | hin
            · exact Or.inl hin
            · rcases List.mem_singleton.mp hin with rfl
              refine Or.inr ⟨rfl, ?_⟩
              apply hmono m
              show m ∈ s1.db.ledger
              rw [hdb1, hld']
              exact List.mem_append_right _ (List.mem_singleton.mpr rfl)
          · exact Or.inr hq2
        | false =>
          rw [if_neg (by simp)] at h
          obtain ⟨hdbeq, -⟩ := applyMigration_nonforced_false happ
          obtain ⟨hmono, hchf⟩ := ih s1 s' h
          have hdbs : s1.db = s.db := hdb1.trans hdbeq
          refine ⟨fun r hr => hmono r (by rw [hdbs]; exact hr), ?_⟩
          intro q hq
          rcases hchf q hq with hq1 | hq2
          · exact Or.inl (hch1 ▸ hq1)
          · exact Or.inr hq2
    · rw [if_neg hp] at h
      exact ih s s' h

/-- Case analysis of a non-aborting run, following the source's control
flow: downgrade loop, upgrade loop, optional forced rerun of the latest
shared migration, then summarize. -/
theorem sync_noabort_cases {σ : Type} (ex : String → σ → Option σ) (db : Db σ)
    (dir : List (String × String)) (opts : SyncOpts) (expected : List Migration)
    (before : MigrationState)
    (hdir : readMigrationsDir dir = .ok expected)
    (hbefore : before = compareMigrationState expected (readMigrationsTable db))
    (hnoab : (!before.unexpected.isEmpty && opts.abortOnUnexpected) = false) :
    (∃ sE, runPhase ex .downgrade opts.shouldApplyDowngrade
        before.unexpected.reverse ⟨db, [], []⟩ = .error sE ∧
      synchronizeMigrations ex db dir opts =
        ⟨sE.trace, sE.db, .error .applyError⟩) ∨
    (∃ s1, runPhase ex .downgrade opts.shouldApplyDowngrade
        before.unexpected.reverse ⟨db, [], []⟩ = .ok s1 ∧
      ((∃ sE, runPhase ex .upgrade opts.shouldApplyUpgrade before.missing s1 =
            .error sE ∧
          synchronizeMigrations ex db dir opts =
            ⟨sE.trace, sE.db, .error .applyError⟩) ∨
       (∃ s2, runPhase ex .upgrade opts.shouldApplyUpgrade before.missing s1 =
            .ok s2 ∧
         (((opts.forceLatestIfSynchronized && !before.shared.isEmpty &&
              before.missing.isEmpty && before.unexpected.isEmpty) = false ∧
            synchronizeMigrations ex db dir opts =
              ⟨s2.trace, s2.db, .ok ⟨before,
                compareMigrationState expected (readMigrationsTable s2.db),
                s2.changes⟩⟩) ∨
          ((opts.forceLatestIfSynchronized && !before.shared.isEmpty &&
              before.missing.isEmpty && before.unexpected.isEmpty) = true ∧
            ∃ latest, before.shared.getLast? = some latest ∧
              ((∃ sE, syncApply ex s2 latest .upgrade true = .error sE ∧
                  synchronizeMigrations ex db dir opts =
                    ⟨sE.trace, sE.db, .error .applyError⟩) ∨
               (∃ s3 b, syncApply ex s2 latest .upgrade true = .ok (s3, b) ∧
                 synchronizeMigrations ex db dir opts =
                   ⟨(if b then { s3 with changes :=
                        s3.changes ++ [(latest, MigrationMode.upgrade)] }
                      else s3).trace,
                    (if b then { s3 with changes :=
                        s3.changes ++ [(latest, MigrationMode.upgrade)] }
                      else s3).db,
                    .ok ⟨before,
                      compareMigrationState expected (readMigrationsTable
                        (if b then { s3 with changes :=
                            s3.changes ++ [(latest, MigrationMode.upgrade)] }
                          else s3).db),
                      (if b then { s3 with changes :=
                          s3.changes ++ [(latest, MigrationMode.upgrade)] }
                        else s3).changes⟩⟩))))))) := by
  subst hbefore
  unfold synchronizeMigrations
  rw [hdir]
  dsimp only
  rw [if_neg (by rw [hnoab]; exact Bool.false_ne_true)]
  cases hr1 : runPhase ex .downgrade opts.shouldApplyDowngrade
      (compareMigrationState expected (readMigrationsTable db)).unexpected.reverse
      ⟨db, [], []⟩ with
  | error sE => exact Or.inl ⟨sE, rfl, rfl⟩
  | ok s1 =>
    dsimp only
    refine Or.inr ⟨s1, rfl, ?_⟩
    cases hr2 : runPhase ex .upgrade opts.shouldApplyUpgrade
        (compareMigrationState expected (readMigrationsTable db)).missing s1 with
    | error sE => exact Or.inl ⟨sE, rfl, rfl⟩
    | ok s2 =>
      dsimp only
      refine Or.inr ⟨s2, rfl, ?_⟩
      by_cases hlat : (opts.forceLatestIfSynchronized &&
          !(compareMigrationState expected (readMigrationsTable db)).shared.isEmpty &&
          (compareMigrationState expected (readMigrationsTable db)).missing.isEmpty &&
          (compareMigrationState expected (readMigrationsTable db)).unexpected.isEmpty)
          = true
      · rw [if_pos hlat]
        refine Or.inr ⟨hlat, ?_⟩
        cases hlast : (compareMigrationState expected
            (readMigrationsTable db)).shared.getLast? with
        | none =>
          exfalso
          have hne : (compareMigrationState expected
              (readMigrationsTable db)).shared ≠ [] := by
            have h1 : (!(compareMigrationState expected
                (readMigrationsTable db)).shared.isEmpty) = true := by
              rcases Bool.and_eq_true_iff.mp hlat with ⟨h3, -⟩
              rcases Bool.and_eq_true_iff.mp h3 with ⟨h4, -⟩
              rcases Bool.and_eq_true_iff.mp h4 with ⟨-, h5⟩
              exact h5
            simpa using h1
          exact hne (List.getLast?_eq_none_iff.mp hlast)
        | some latest =>
          dsimp only
          refine ⟨latest, rfl, ?_⟩
          cases hsa3 : syncApply ex s2 latest .upgrade true with
          | error sE => exact Or.inl ⟨sE, rfl, rfl⟩
          | ok p =>
            obtain ⟨s3, b⟩ := p
            dsimp only
            exact Or.inr ⟨s3, b, rfl, rfl⟩
      · rw [if_neg hlat]
        exact Or.inl ⟨by rwa [Bool.not_eq_true] at hlat, rfl⟩

/-- A failing directory read aborts the run before touching the database. -/
theorem sync_dirError {σ : Type} (ex : String → σ → Option σ) (db : Db σ)
    (dir : List (String × String)) (opts : SyncOpts) {e : ReadDirError}
    (h : readMigrationsDir dir = .error e) :
    synchronizeMigrations ex db dir opts = ⟨[], db, .error (.dirError e)⟩ := by
  unfold synchronizeMigrations
  rw [h]

/-- The Decide-abort short circuit: unexpected migrations with the
abort-on-unexpected policy end the run immediately with no changes. -/
theorem sync_abort {σ : Type} (ex : String → σ → Option σ) (db : Db σ)
    (dir : List (String × String)) (opts : SyncOpts) {expected : List Migration}
    (h : readMigrationsDir dir = .ok expected)
    (habort : opts.abortOnUnexpected = true)
    (hunex : (compareMigrationState expected (readMigrationsTable db)).unexpected ≠ []) :
    synchronizeMigrations ex db dir opts =
      ⟨[], db, .ok ⟨compareMigrationState expected (readMigrationsTable db),
        compareMigrationState expected (readMigrationsTable db), []⟩⟩ := by
  unfold synchronizeMigrations
  rw [h]
  dsimp only
  rw [if_pos (by simp [habort, hunex])]

/-! ## The claims -/

/-- C2: in a run where the pre-state has unexpected migrations and the
abort-on-unexpected policy is active, synchronization returns immediately:
`changes` is empty, `before` equals `after`, no migration script is
executed (the event trace is empty) and the ledger rows are untouched
(the database state is returned unchanged). -/
theorem claim_C2 {σ : Type} (ex : String → σ → Option σ) (db : Db σ)
    (dir : List (String × String)) (opts : SyncOpts) (expected : List Migration)
    (hdir : readMigrationsDir dir = .ok expected)
    (hunex : (compareMigrationState expected (readMigrationsTable db)).unexpected ≠ [])
    (habort : opts.abortOnUnexpected = true) :
    ∃ st, (synchronizeMigrations ex db dir opts).result = .ok st ∧
      st.changes = [] ∧ st.before = st.after ∧
      (synchronizeMigrations ex db dir opts).db = db ∧
      (synchronizeMigrations ex db dir opts).trace = [] := by
  rw [sync_abort ex db dir opts hdir habort hunex]
  exact ⟨_, rfl, rfl, rfl, rfl, rfl⟩

/-- Witness for C2 at a concrete aborting run: one expected migration, one
unexpected ledger row, default options. -/
theorem claim_C2_witness :
    (readMigrationsDir
        [("1.init.sql", "--trudge:upgrade\nCREATE X\n--trudge:downgrade\nDROP X")] =
      .ok [⟨1, "init", "CREATE X", "DROP X"⟩]) ∧
    ((compareMigrationState [⟨1, "init", "CREATE X", "DROP X"⟩]
        (readMigrationsTable (⟨[⟨2, "ghost", "u", "d"⟩], ()⟩ : Db Unit))).unexpected ≠ []) ∧
    (SyncOpts.abortOnUnexpected {} = true) ∧
    (∃ st, (synchronizeMigrations (fun _ _ => some ()) ⟨[⟨2, "ghost", "u", "d"⟩], ()⟩
        [("1.init.sql", "--trudge:upgrade\nCREATE X\n--trudge:downgrade\nDROP X")]
        {}).result = .ok st ∧
      st.changes = [] ∧ st.before = st.after ∧
      (synchronizeMigrations (fun _ _ => some ()) ⟨[⟨2, "ghost", "u", "d"⟩], ()⟩
        [("1.init.sql", "--trudge:upgrade\nCREATE X\n--trudge:downgrade\nDROP X")]
        {}).db = ⟨[⟨2, "ghost", "u", "d"⟩], ()⟩ ∧
      (synchronizeMigrations (fun _ _ => some ()) ⟨[⟨2, "ghost", "u", "d"⟩], ()⟩
        [("1.init.sql", "--trudge:upgrade\nCREATE X\n--trudge:downgrade\nDROP X")]
        {}).trace = []) :=
  ⟨by decide, by decide, rfl,
    claim_C2 (fun _ _ => some ()) ⟨[⟨2, "ghost", "u", "d"⟩], ()⟩
      [("1.init.sql", "--trudge:upgrade\nCREATE X\n--trudge:downgrade\nDROP X")]
      {} [⟨1, "init", "CREATE X", "DROP X"⟩] (by decide) (by decide) rfl⟩

/-- C3: the three-way diff is a partition by fingerprint: shared and
missing together carry exactly the expected fingerprints, shared and
unexpected together carry exactly the applied fingerprints (the
fingerprint-deduplicated sets have the same members), and the three lists
are pairwise disjoint by fingerprint. -/
theorem claim_C3 (expected applied : List Migration) :
    (∀ f, (f ∈ ((compareMigrationState expected applied).shared ++
        (compareMigrationState expected applied).missing).map canonicalId ↔
      f ∈ expected.map canonicalId)) ∧
    (∀ f, (f ∈ ((compareMigrationState expected applied).shared ++
        (compareMigrationState expected applied).unexpected).map canonicalId ↔
      f ∈ applied.map canonicalId)) ∧
    (∀ f, ¬(f ∈ (compareMigrationState expected applied).shared.map canonicalId ∧
        f ∈ (compareMigrationState expected applied).missing.map canonicalId)) ∧
    (∀ f, ¬(f ∈ (compareMigrationState expected applied).shared.map canonicalId ∧
        f ∈ (compareMigrationState expected applied).unexpected.map canonicalId)) ∧
    (∀ f, ¬(f ∈ (compareMigrationState expected applied).missing.map canonicalId ∧
        f ∈ (compareMigrationState expected applied).unexpected.map canonicalId)) := by
  refine ⟨fun f => ?_, fun f => ?_, fun f => ?_, fun f => ?_, fun f => ?_⟩
  · rw [List.map_append, List.mem_append, fps_shared_iff, fps_missing_iff]
    by_cases ha : f ∈ applied.map canonicalId <;> simp [ha]
  · rw [List.map_append, List.mem_append, fps_shared_iff, fps_unexpected_iff]
    by_cases he : f ∈ expected.map canonicalId <;> simp [he]
  · rw [fps_shared_iff, fps_missing_iff]
    tauto
  · rw [fps_shared_iff, fps_unexpected_iff]
    tauto
  · rw [fps_missing_iff, fps_unexpected_iff]
    tauto

/-- C4 (amended): the fingerprint is deterministic, and — provided the
trimmed name and trimmed upgrade of both migrations contain no embedded
newline — two migrations have equal fingerprints exactly when they agree
on id, trimmed name, trimmed upgrade and trimmed downgrade.  (Without the
newline restriction the pre-image is ambiguous; see the counterexample.) -/
theorem claim_C4 (m1 m2 : Migration)
    (hn1 : '\n' ∉ (jsTrim m1.name).data) (hu1 : '\n' ∉ (jsTrim m1.upgrade).data)
    (hn2 : '\n' ∉ (jsTrim m2.name).data) (hu2 : '\n' ∉ (jsTrim m2.upgrade).data) :
    canonicalId m1 = canonicalId m1 ∧
    (canonicalId m1 = canonicalId m2 ↔
      (m1.id = m2.id ∧ jsTrim m1.name = jsTrim m2.name ∧
       jsTrim m1.upgrade = jsTrim m2.upgrade ∧
       jsTrim m1.downgrade = jsTrim m2.downgrade)) :=
  ⟨rfl, ⟨fun h => canonicalId_inj_parts hn1 hu1 hn2 hu2 h,
    fun h => canonicalId_congr h.1 h.2.1 h.2.2.1 h.2.2.2⟩⟩

/-- Counterexample to C4 as stated: a name containing an embedded
`"\nupgrade:"` makes the canonicalized pre-image ambiguous, so two
migrations with different trimmed names share a fingerprint. -/
theorem claim_C4_counterexample :
    ¬ (canonicalId ⟨1, "a\nupgrade:b", "c", "d"⟩ =
        canonicalId ⟨1, "a", "b\nupgrade:c", "d"⟩ ↔
      ((Migration.mk 1 "a\nupgrade:b" "c" "d").id =
          (Migration.mk 1 "a" "b\nupgrade:c" "d").id ∧
        jsTrim (Migration.mk 1 "a\nupgrade:b" "c" "d").name =
          jsTrim (Migration.mk 1 "a" "b\nupgrade:c" "d").name ∧
        jsTrim (Migration.mk 1 "a\nupgrade:b" "c" "d").upgrade =
          jsTrim (Migration.mk 1 "a" "b\nupgrade:c" "d").upgrade ∧
        jsTrim (Migration.mk 1 "a\nupgrade:b" "c" "d").downgrade =
          jsTrim (Migration.mk 1 "a" "b\nupgrade:c" "d").downgrade)) := by
  decide

/-- Witness for C4 at concrete newline-free migrations differing only in
incidental outer whitespace. -/
theorem claim_C4_witness :
    ('\n' ∉ (jsTrim (Migration.mk 7 " a " "u" "d").name).data) ∧
    ('\n' ∉ (jsTrim (Migration.mk 7 " a " "u" "d").upgrade).data) ∧
    ('\n' ∉ (jsTrim (Migration.mk 7 "a" "u " " d").name).data) ∧
    ('\n' ∉ (jsTrim (Migration.mk 7 "a" "u " " d").upgrade).data) ∧
    (canonicalId ⟨7, " a ", "u", "d"⟩ = canonicalId ⟨7, " a ", "u", "d"⟩ ∧
      (canonicalId ⟨7, " a ", "u", "d"⟩ = canonicalId ⟨7, "a", "u ", " d"⟩ ↔
        ((Migration.mk 7 " a " "u" "d").id = (Migration.mk 7 "a" "u " " d").id ∧
          jsTrim (Migration.mk 7 " a " "u" "d").name =
            jsTrim (Migration.mk 7 "a" "u " " d").name ∧
          jsTrim (Migration.mk 7 " a " "u" "d").upgrade =
            jsTrim (Migration.mk 7 "a" "u " " d").upgrade ∧
          jsTrim (Migration.mk 7 " a " "u" "d").downgrade =
            jsTrim (Migration.mk 7 "a" "u " " d").downgrade))) :=
  ⟨by decide, by decide, by decide, by decide,
    claim_C4 ⟨7, " a ", "u", "d"⟩ ⟨7, "a", "u ", " d"⟩
      (by decide) (by decide) (by decide) (by decide)⟩

/-- C7: non-forced upgrade is idempotent.  If a first non-forced upgrade
call returns (with any applied flag), it ran the script at most once, and
a second non-forced upgrade of the same migration on the resulting
database returns `false`, runs no script and changes nothing. -/
theorem claim_C7 {σ : Type} (ex : String → σ → Option σ) (db : Db σ)
    (m : Migration) (scripts1 : List String) (db1 : Db σ) (b1 : Bool)
    (h : applyMigration ex db m .upgrade false = (scripts1, .ok (db1, b1))) :
    applyMigration ex db1 m .upgrade false = ([], .ok (db1, false)) ∧
    scripts1.length ≤ 1 := by
  cases b1 with
  | false =>
    obtain ⟨hdb, hscr⟩ := applyMigration_nonforced_false h
    subst hdb
    rw [applyMigration_upgrade_nonforced] at h ⊢
    by_cases hid : hasId db1.ledger m.id = true
    · rw [if_pos hid]
      exact ⟨rfl, by simp [hscr]⟩
    · rw [if_neg hid] at h
      cases hex : ex m.upgrade db1.schema <;> rw [hex] at h <;> simp at h
  | true =>
    obtain ⟨-, hslen⟩ := applyMigration_nonforced_true h
    obtain ⟨-, hld⟩ := applyMigration_upgrade_true_extra h
    have hid1 : hasId db1.ledger m.id = true := by
      apply hasId_iff_exists.mpr
      exact ⟨m, by rw [hld]; exact List.mem_append_right _ (List.mem_singleton.mpr rfl),
        rfl⟩
    rw [applyMigration_upgrade_nonforced, if_pos hid1]
    exact ⟨rfl, by omega⟩

/-- Witness for C7 at a concrete first upgrade on an empty ledger. -/
theorem claim_C7_witness :
    (applyMigration (fun _ _ => some ()) (⟨[], ()⟩ : Db Unit)
        ⟨1, "a", "u", "d"⟩ .upgrade false =
      (["u"], .ok (⟨[⟨1, "a", "u", "d"⟩], ()⟩, true))) ∧
    (applyMigration (fun _ _ => some ()) (⟨[⟨1, "a", "u", "d"⟩], ()⟩ : Db Unit)
        ⟨1, "a", "u", "d"⟩ .upgrade false =
      ([], .ok (⟨[⟨1, "a", "u", "d"⟩], ()⟩, false)) ∧
      (["u"] : List String).length ≤ 1) :=
  ⟨by decide,
    claim_C7 (fun _ _ => some ()) ⟨[], ()⟩ ⟨1, "a", "u", "d"⟩ ["u"]
      ⟨[⟨1, "a", "u", "d"⟩], ()⟩ true (by decide)⟩

/-- C10: non-forced applies are keyed on the ledger row id only.  If any
ledger row carries the migration's id, a non-forced upgrade returns
`false`, runs no script and changes nothing, while a non-forced downgrade
deletes the rows with that id and executes the argument migration's own
downgrade text (not the text stored in the row). -/
theorem claim_C10 {σ : Type} (ex : String → σ → Option σ) (db : Db σ)
    (m r : Migration) (hr : r ∈ db.ledger) (hid : r.id = m.id) :
    applyMigration ex db m .upgrade false = ([], .ok (db, false)) ∧
    (∀ sch', ex m.downgrade db.schema = some sch' →
      applyMigration ex db m .downgrade false =
        ([m.downgrade],
          .ok (⟨db.ledger.filter (fun x => x.id ≠ m.id), sch'⟩, true))) := by
  have hhas : hasId db.ledger m.id = true := hasId_iff_exists.mpr ⟨r, hr, hid⟩
  constructor
  · rw [applyMigration_upgrade_nonforced, if_pos hhas]
  · intro sch' hex
    rw [applyMigration_downgrade_nonforced, if_pos hhas, hex]

/-- Witness for C10: a ledger row with the same id but different content. -/
theorem claim_C10_witness :
    ((⟨1, "old", "u0", "d0"⟩ : Migration) ∈
      (⟨[⟨1, "old", "u0", "d0"⟩], ()⟩ : Db Unit).ledger) ∧
    ((Migration.mk 1 "old" "u0" "d0").id = (Migration.mk 1 "new" "u1" "d1").id) ∧
    (applyMigration (fun _ _ => some ()) (⟨[⟨1, "old", "u0", "d0"⟩], ()⟩ : Db Unit)
        ⟨1, "new", "u1", "d1"⟩ .upgrade false =
      ([], .ok (⟨[⟨1, "old", "u0", "d0"⟩], ()⟩, false)) ∧
    (∀ sch', (fun (_ : String) (_ : Unit) => some ()) "d1" () = some sch' →
      applyMigration (fun _ _ => some ()) (⟨[⟨1, "old", "u0", "d0"⟩], ()⟩ : Db Unit)
          ⟨1, "new", "u1", "d1"⟩ .downgrade false =
        (["d1"], .ok (⟨[], sch'⟩, true)))) := by
  refine ⟨by decide, by decide, ?_⟩
  have h := claim_C10 (fun _ _ => some ()) ⟨[⟨1, "old", "u0", "d0"⟩], ()⟩
    ⟨1, "new", "u1", "d1"⟩ ⟨1, "old", "u0", "d0"⟩ (by decide) (by decide)
  exact h

/-- C8: if the parsed directory has duplicate ids, the read fails with an
error naming exactly the duplicated ids (checked over the whole
directory), and a synchronization run over that directory fails before any
database access: unchanged database, empty trace. -/
theorem claim_C8 {σ : Type} (ex : String → σ → Option σ) (db : Db σ)
    (dir : List (String × String)) (opts : SyncOpts) (ms : List Migration)
    (hc : collectMigrations dir = .ok ms)
    (hdup : ¬ (ms.map Migration.id).Nodup) :
    readMigrationsDir dir = .error (.duplicateIds (dupIds ms)) ∧
    (∀ i, i ∈ dupIds ms ↔ 2 ≤ countId ms i) ∧
    dupIds ms ≠ [] ∧
    synchronizeMigrations ex db dir opts =
      ⟨[], db, .error (.dirError (.duplicateIds (dupIds ms)))⟩ := by
  have hne : dupIds ms ≠ [] := by
    obtain ⟨i, hidup⟩ := List.exists_duplicate_iff_not_nodup.mpr hdup
    have hcount := List.duplicate_iff_two_le_count.mp hidup
    have hmem : i ∈ dupIds ms :=
      dupIds_mem_iff.mpr (by rw [countId_eq]; exact hcount)
    intro hnil
    rw [hnil] at hmem
    cases hmem
  have hread : readMigrationsDir dir = .error (.duplicateIds (dupIds ms)) := by
    unfold readMigrationsDir
    rw [hc]
    dsimp only
    rw [if_neg (fun habs => hne (List.isEmpty_iff.mp habs))]
  exact ⟨hread, fun i => dupIds_mem_iff, hne, sync_dirError ex db dir opts hread⟩

/-- Witness for C8: two files whose ids collide (`1.a.sql`, `01.b.sql`). -/
theorem claim_C8_witness :
    (collectMigrations
        [("1.a.sql", "--trudge:downgrade\nx"), ("01.b.sql", "--trudge:downgrade\ny")] =
      .ok [⟨1, "a", "", "x"⟩, ⟨1, "b", "", "y"⟩]) ∧
    (¬ (([⟨1, "a", "", "x"⟩, ⟨1, "b", "", "y"⟩] :
        List Migration).map Migration.id).Nodup) ∧
    (readMigrationsDir
        [("1.a.sql", "--trudge:downgrade\nx"), ("01.b.sql", "--trudge:downgrade\ny")] =
      .error (.duplicateIds (dupIds [⟨1, "a", "", "x"⟩, ⟨1, "b", "", "y"⟩])) ∧
    (∀ i, i ∈ dupIds [⟨1, "a", "", "x"⟩, ⟨1, "b", "", "y"⟩] ↔
      2 ≤ countId [⟨1, "a", "", "x"⟩, ⟨1, "b", "", "y"⟩] i) ∧
    dupIds [⟨1, "a", "", "x"⟩, ⟨1, "b", "", "y"⟩] ≠ [] ∧
    synchronizeMigrations (fun _ _ => some ()) (⟨[], ()⟩ : Db Unit)
        [("1.a.sql", "--trudge:downgrade\nx"), ("01.b.sql", "--trudge:downgrade\ny")]
        {} =
      ⟨[], ⟨[], ()⟩,
        .error (.dirError (.duplicateIds
          (dupIds [⟨1, "a", "", "x"⟩, ⟨1, "b", "", "y"⟩])))⟩) :=
  ⟨by decide, by decide,
    claim_C8 (fun _ _ => some ()) ⟨[], ()⟩
      [("1.a.sql", "--trudge:downgrade\nx"), ("01.b.sql", "--trudge:downgrade\ny")]
      {} [⟨1, "a", "", "x"⟩, ⟨1, "b", "", "y"⟩] (by decide) (by decide)⟩

theorem parseFilename_name_ne {s : String} {i : Nat} {nm : String}
    (h : parseFilename s = some (i, nm)) : nm ≠ "" := by
  unfold parseFilename at h
  by_cases hds : (s.data.takeWhile Char.isDigit).isEmpty = true
  · rw [if_pos hds] at h
    cases h
  · rw [if_neg hds] at h
    cases hrest : s.data.dropWhile Char.isDigit with
    | nil =>
      rw [hrest] at h
      cases h
    | cons c rest2 =>
      rw [hrest] at h
      dsimp only at h
      by_cases hc : c = '.'
      · rw [if_pos hc] at h
        split at h
        · rename_i hcond
          obtain ⟨-, hnm⟩ := Prod.mk.injEq .. ▸ Option.some.injEq .. ▸ h
          obtain ⟨h5, -⟩ := Bool.and_eq_true_iff.mp (Bool.and_eq_true_iff.mp hcond).1
          have hlen : nm.data.length = rest2.length - 4 := by
            rw [← hnm]
            show (rest2.take (rest2.length - 4)).length = _
            rw [List.length_take]
            omega
          intro habs
          rw [habs] at hlen
          have h5' : 5 ≤ rest2.length := by simpa using h5
          simp at hlen
          omega
        · cases h
      · rw [if_neg hc] at h
        cases h

theorem splitTemplate_down_ne {c : String} {up down : String}
    (h : splitTemplate c = some (up, down)) : down ≠ "" := by
  unfold splitTemplate at h
  cases hp : (splitDelim (c.data.length + 1) c.data true []).map cleanPart with
  | nil =>
    rw [hp] at h
    cases h
  | cons u rest =>
    rw [hp] at h
    cases rest with
    | nil =>
      dsimp only at h
      cases h
    | cons d rest2 =>
      dsimp only at h
      by_cases hd : d = ""
      · rw [if_pos hd] at h
        cases h
      · rw [if_neg hd] at h
        obtain ⟨-, h2⟩ := Prod.mk.injEq .. ▸ Option.some.injEq .. ▸ h
        rw [← h2]
        exact hd

theorem readMigrationsDir_ok_collect {dir : List (String × String)}
    {ms : List Migration} (h : readMigrationsDir dir = .ok ms) :
    collectMigrations dir = .ok ms := by
  unfold readMigrationsDir at h
  cases hcm : collectMigrations dir with
  | error e =>
    rw [hcm] at h
    cases h
  | ok ms' =>
    rw [hcm] at h
    dsimp only at h
    by_cases hdup : (dupIds ms').isEmpty = true
    · rw [if_pos hdup] at h
      cases h
      rfl
    · rw [if_neg hdup] at h
      cases h

theorem parseMigrationFile_ok_some {f c : String} {m : Migration}
    (h : parseMigrationFile f c = .ok (some m)) :
    ∃ i n up down, parseFilename f = some (i, n) ∧
      splitTemplate c = some (up, down) ∧ m = ⟨i, n, up, down⟩ := by
  unfold parseMigrationFile at h
  cases hp : parseFilename f with
  | none =>
    rw [hp] at h
    cases h
  | some p =>
    obtain ⟨i, n⟩ := p
    rw [hp] at h
    cases hs : splitTemplate c with
    | none =>
      rw [hs] at h
      cases h
    | some q =>
      obtain ⟨u, d⟩ := q
      rw [hs] at h
      dsimp only at h
      cases h
      exact ⟨i, n, u, d, rfl, rfl, rfl⟩

theorem parseMigrationFile_error {f c : String} {e : ReadDirError}
    (h : parseMigrationFile f c = .error e) :
    ∃ i n, parseFilename f = some (i, n) ∧ splitTemplate c = none ∧
      e = .malformed f := by
  unfold parseMigrationFile at h
  cases hp : parseFilename f with
  | none =>
    rw [hp] at h
    cases h
  | some p =>
    obtain ⟨i, n⟩ := p
    rw [hp] at h
    cases hs : splitTemplate c with
    | none =>
      rw [hs] at h
      dsimp only at h
      cases h
      exact ⟨i, n, rfl, rfl, rfl⟩
    | some q =>
      obtain ⟨u, d⟩ := q
      rw [hs] at h
      cases h

theorem parseMigrationFile_malformed {f c : String} {i : Nat} {n : String}
    (hp : parseFilename f = some (i, n)) (hs : splitTemplate c = none) :
    parseMigrationFile f c = .error (.malformed f) := by
  unfold parseMigrationFile
  rw [hp, hs]

theorem collectMigrations_mem :
    ∀ {dir : List (String × String)} {ms : List Migration} {m : Migration},
      collectMigrations dir = .ok ms → m ∈ ms →
      ∃ f c, (f, c) ∈ dir ∧ parseMigrationFile f c = .ok (some m) := by
  intro dir
  induction dir with
  | nil =>
    intro ms m h hm
    cases h
    cases hm
  | cons fc rest ih =>
    obtain ⟨f, c⟩ := fc
    intro ms m h hm
    unfold collectMigrations at h
    cases hpm : parseMigrationFile f c with
    | error e =>
      rw [hpm] at h
      cases h
    | ok o =>
      rw [hpm] at h
      cases o with
      | none =>
        dsimp only at h
        obtain ⟨f2, c2, hmem, hp2⟩ := ih h hm
        exact ⟨f2, c2, List.mem_cons_of_mem _ hmem, hp2⟩
      | some m0 =>
        dsimp only at h
        cases hrest : collectMigrations rest with
        | error e =>
          rw [hrest] at h
          cases h
        | ok ms' =>
          rw [hrest] at h
          dsimp only [Except.map] at h
          cases h
          rcases List.mem_cons.mp hm with rfl | hm2
          · exact ⟨f, c, List.mem_cons_self _ _, hpm⟩
          · obtain ⟨f2, c2, hmem, hp2⟩ := ih hrest hm2
            exact ⟨f2, c2, List.mem_cons_of_mem _ hmem, hp2⟩

theorem collect_malformed :
    ∀ {dir : List (String × String)} {fname content : String} {i : Nat}
      {n : String},
      (fname, content) ∈ dir → parseFilename fname = some (i, n) →
      splitTemplate content = none →
      ∃ f2 c2 i2 n2, (f2, c2) ∈ dir ∧ parseFilename f2 = some (i2, n2) ∧
        splitTemplate c2 = none ∧
        collectMigrations dir = .error (.malformed f2) := by
  intro dir
  induction dir with
  | nil =>
    intro _ _ _ _ hmem
    cases hmem
  | cons fc rest ih =>
    obtain ⟨f, c⟩ := fc
    intro fname content i n hmem hpf hst
    cases hpm : parseMigrationFile f c with
    | error e =>
      obtain ⟨i2, n2, hp2, hs2, he⟩ := parseMigrationFile_error hpm
      refine ⟨f, c, i2, n2, List.mem_cons_self _ _, hp2, hs2, ?_⟩
      show collectMigrations ((f, c) :: rest) = _
      unfold collectMigrations
      rw [hpm, he]
    | ok o =>
      have hmem2 : (fname, content) ∈ rest := by
        rcases List.mem_cons.mp hmem with heq | h2
        · exfalso
          obtain ⟨hf, hc⟩ := Prod.mk.injEq .. ▸ heq
          rw [← hf, ← hc] at hpm
          rw [parseMigrationFile_malformed hpf hst] at hpm
          cases hpm
        · exact h2
      obtain ⟨f2, c2, i2, n2, hm2, hp2, hs2, hcol⟩ := ih hmem2 hpf hst
      refine ⟨f2, c2, i2, n2, List.mem_cons_of_mem _ hm2, hp2, hs2, ?_⟩
      show collectMigrations ((f, c) :: rest) = _
      unfold collectMigrations
      rw [hpm]
      cases o with
      | none =>
        dsimp only
        exact hcol
      | some m0 =>
        dsimp only
        rw [hcol]
        rfl

/-- C9 (amended): every migration produced by `readMigrationsDir` has a
non-empty name and a non-empty (already-trimmed) downgrade text, and a
candidate file lacking the downgrade delimiter (or with an empty downgrade
section) makes the whole read fail with a malformed-migration error that
identifies a malformed candidate file.  (The source does not require the
id to be positive — `0.x.sql` parses to id 0 — and does not require the
upgrade section to be non-empty; see the counterexample.) -/
theorem claim_C9 (dir : List (String × String)) :
    (∀ ms, readMigrationsDir dir = .ok ms →
      ∀ m ∈ ms, m.name ≠ "" ∧ m.downgrade ≠ "") ∧
    (∀ fname content i n, (fname, content) ∈ dir →
      parseFilename fname = some (i, n) → splitTemplate content = none →
      ∃ f2, readMigrationsDir dir = .error (.malformed f2) ∧
        ∃ c2 i2 n2, (f2, c2) ∈ dir ∧ parseFilename f2 = some (i2, n2) ∧
          splitTemplate c2 = none) := by
  constructor
  · intro ms hok m hm
    obtain ⟨f, c, -, hpm⟩ :=
      collectMigrations_mem (readMigrationsDir_ok_collect hok) hm
    obtain ⟨i, n, up, down, hpf, hst, rfl⟩ := parseMigrationFile_ok_some hpm
    exact ⟨parseFilename_name_ne hpf, splitTemplate_down_ne hst⟩
  · intro fname content i n hmem hpf hst
    obtain ⟨f2, c2, i2, n2, hm2, hp2, hs2, hcol⟩ := collect_malformed hmem hpf hst
    refine ⟨f2, ?_, c2, i2, n2, hm2, hp2, hs2⟩
    unfold readMigrationsDir
    rw [hcol]

/-- Counterexample to C9 as stated: `0.down.sql` with an empty upgrade
section is read successfully, producing a migration whose id is not
positive and whose trimmed upgrade is empty. -/
theorem claim_C9_counterexample :
    readMigrationsDir [("0.down.sql", "--trudge:downgrade\nx")] =
      .ok [⟨0, "down", "", "x"⟩] ∧
    ¬(0 < (Migration.mk 0 "down" "" "x").id ∧
      jsTrim (Migration.mk 0 "down" "" "x").upgrade ≠ "") := by
  decide

/-- Witness for C9 at concrete directories: a successful read yields
non-empty name and downgrade, and a delimiter-less candidate fails the
read naming the file. -/
theorem claim_C9_witness :
    (readMigrationsDir [("1.a.sql", "--trudge:downgrade\nx")] =
        .ok [⟨1, "a", "", "x"⟩] ∧
      ((Migration.mk 1 "a" "" "x").name ≠ "" ∧
        (Migration.mk 1 "a" "" "x").downgrade ≠ "")) ∧
    ((("2.bad.sql", "no delimiter here") ∈
        [(("2.bad.sql" : String), ("no delimiter here" : String))]) ∧
      parseFilename "2.bad.sql" = some (2, "bad") ∧
      splitTemplate "no delimiter here" = none ∧
      (∃ f2, readMigrationsDir [("2.bad.sql", "no delimiter here")] =
          .error (.malformed f2) ∧
        ∃ c2 i2 n2, (f2, c2) ∈ [(("2.bad.sql" : String), ("no delimiter here" : String))] ∧
          parseFilename f2 = some (i2, n2) ∧ splitTemplate c2 = none)) :=
  ⟨⟨by decide,
      (claim_C9 [("1.a.sql", "--trudge:downgrade\nx")]).1 [⟨1, "a", "", "x"⟩]
        (by decide) ⟨1, "a", "", "x"⟩ (by decide)⟩,
    ⟨by decide, by decide, by decide,
      (claim_C9 [("2.bad.sql", "no delimiter here")]).2 "2.bad.sql"
        "no delimiter here" 2 "bad" (by decide) (by decide) (by decide)⟩⟩

/-! ## Further run lemmas -/

theorem applyMigration_forced_true {σ : Type} {ex : String → σ → Option σ}
    {db : Db σ} {m : Migration} {mode : MigrationMode} {scripts : List String}
    {db' : Db σ} {b : Bool}
    (h : applyMigration ex db m mode true = (scripts, .ok (db', b))) :
    b = true := by
  cases mode
  · rw [applyMigration_upgrade_forced] at h
    cases hex : ex m.upgrade db.schema with
    | none => rw [hex] at h; cases h
    | some sch =>
      rw [hex] at h
      obtain ⟨-, h2⟩ := Prod.mk.injEq .. ▸ h
      cases h2
      rfl
  · rw [applyMigration_downgrade_forced] at h
    cases hex : ex m.downgrade db.schema with
    | none => rw [hex] at h; cases h
    | some sch =>
      rw [hex] at h
      obtain ⟨-, h2⟩ := Prod.mk.injEq .. ▸ h
      cases h2
      rfl

/-- Replaying applies can only produce rows that were present before or
that are the migration of one of the applies. -/
theorem replay_mem {r : Migration} :
    ∀ (chs : List (Migration × MigrationMode)) (l : List Migration),
      r ∈ chs.foldl applyChange l → r ∈ l ∨ ∃ q ∈ chs, q.1 = r := by
  intro chs
  induction chs with
  | nil => intro l h; exact Or.inl h
  | cons q rest ih =>
    intro l h
    rcases ih (applyChange l q) h with h1 | ⟨q2, hq2, hq2e⟩
    · obtain ⟨m, mode⟩ := q
      cases mode with
      | upgrade =>
        have : r ∈ (ledgerInsert l m).1 := h1
        rw [ledgerInsert] at this
        by_cases hid : hasId l m.id = true
        · rw [if_pos hid] at this
          exact Or.inl this
        · rw [if_neg hid] at this
          rcases List.mem_append.mp this with h2 | h2
          · exact Or.inl h2
          · rcases List.mem_singleton.mp h2 with rfl
            exact Or.inr ⟨(r, .upgrade), List.mem_cons_self _ _, rfl⟩
      | downgrade =>
        have : r ∈ (ledgerRemove l m.id).1 := h1
        rw [ledgerRemove] at this
        exact Or.inl (List.mem_filter.mp this).1
    · exact Or.inr ⟨q2, List.mem_cons_of_mem _ hq2, hq2e⟩

/-- A trailing failed event contributes no success. -/
theorem successesOf_failed (x : List Event) (mF : Migration)
    (mode : MigrationMode) :
    successesOf (x ++ [Event.failed mF mode]) = successesOf x := by
  rw [successesOf_append]
  simp [successesOf]

/-- Invariant of a failing reconcile loop: the trace ends with the failed
event of the raising migration, and the database reflects exactly the
successful applies made before the failure. -/
theorem runPhase_error_inv {σ : Type} (ex : String → σ → Option σ)
    (mode : MigrationMode) (pred : Migration → Bool) (ms : List Migration) :
    ∀ (s sE : RunState σ),
      runPhase ex mode pred ms s = .error sE →
      ∃ tr m, sE.trace = s.trace ++ tr ++ [Event.failed m mode] ∧
        successesOf (tr ++ [Event.failed m mode]) = successesOf tr ∧
        sE.db.ledger = (successesOf tr).foldl applyChange s.db.ledger := by
  induction ms with
  | nil =>
    intro s sE h
    cases h
  | cons m rest ih =>
    intro s sE h
    rw [runPhase_cons] at h
    by_cases hp : pred m = true
    · rw [if_pos hp] at h
      cases hsa : syncApply ex s m mode false with
      | error s1 =>
        rw [hsa] at h
        cases h
        obtain ⟨scripts, happ, hdb1, hch1, htr1⟩ := syncApply_error_inv hsa
        refine ⟨Event.started m mode false :: scripts.map Event.executed, m, ?_, ?_, ?_⟩
        · rw [htr1]
          simp
        · exact successesOf_failed _ _ _
        · rw [hdb1]
          have : successesOf (Event.started m mode false ::
              scripts.map Event.executed) = [] := by
            rw [show Event.started m mode false :: scripts.map Event.executed =
              [Event.started m mode false] ++ scripts.map Event.executed from rfl,
              successesOf_append, successesOf_executeds]
            rfl
          rw [this]
          rfl
      | ok p =>
        obtain ⟨s1, b⟩ := p
        rw [hsa] at h
        dsimp only at h
        obtain ⟨scripts, db', happ, hdb1, hch1, htr1⟩ := syncApply_ok_inv hsa
        cases b with
        | true =>
          rw [if_pos rfl] at h
          obtain ⟨tr, mF, htr, hsucc, hldg⟩ := ih _ sE h
          obtain ⟨hld', -⟩ := applyMigration_nonforced_true happ
          have hblock : successesOf (Event.started m mode false ::
              scripts.map Event.executed ++ [Event.finished m mode true]) =
              [(m, mode)] := by
            rw [successesOf_block_finished]
            simp
          refine ⟨(Event.started m mode false :: scripts.map Event.executed ++
            [Event.finished m mode true]) ++ tr, mF, ?_, ?_, ?_⟩
          · rw [htr]
            show s1.trace ++ tr ++ _ = _
            rw [htr1]
            simp
          · exact successesOf_failed _ _ _
          · rw [hldg, successesOf_append, hblock]
            show List.foldl applyChange s1.db.ledger _ = _
            rw [hdb1, hld']
            rfl
        | false =>
          rw [if_neg (by simp)] at h
          obtain ⟨hdbeq, hscr⟩ := applyMigration_nonforced_false happ
          obtain ⟨tr, mF, htr, hsucc, hldg⟩ := ih s1 sE h
          have hblock : successesOf (Event.started m mode false ::
              scripts.map Event.executed ++ [Event.finished m mode false]) =
              [] := by
            rw [successesOf_block_finished]
            simp
          refine ⟨(Event.started m mode false :: scripts.map Event.executed ++
            [Event.finished m mode false]) ++ tr, mF, ?_, ?_, ?_⟩
          · rw [htr, htr1]
            simp
          · exact successesOf_failed _ _ _
          · rw [hldg, hdb1, hdbeq, successesOf_append, hblock]
            rfl
    · rw [if_neg hp] at h
      exact ih s sE h

theorem getLast?_mem_list {l : List Migration} {a : Migration}
    (h : l.getLast? = some a) : a ∈ l := by
  obtain ⟨hne, heq⟩ := List.mem_getLast?_eq_getLast (Option.mem_def.mpr h)
  rw [heq]
  exact List.getLast_mem hne

theorem if_true_eq {α : Type} (x y : α) : (if true = true then x else y) = x := rfl

/-- C5: in a successful non-aborting run, the attempted applies are
exactly the approved downgrades of `before.unexpected` from highest id to
lowest, then the approved upgrades of `before.missing` from lowest id to
highest, then (only) possibly a forced upgrade of a shared migration
(rerun-latest); and `changes` records exactly the successfully applied
(migration, direction) pairs in application order. -/
theorem claim_C5 {σ : Type} (ex : String → σ → Option σ) (db : Db σ)
    (dir : List (String × String)) (opts : SyncOpts) (st : SynchronizeState)
    (hnodup : (db.ledger.map Migration.id).Nodup)
    (hres : (synchronizeMigrations ex db dir opts).result = .ok st)
    (hnoabort : opts.abortOnUnexpected = false ∨ st.before.unexpected = []) :
    ∃ latestAtts,
      attemptsOf (synchronizeMigrations ex db dir opts).trace =
        (st.before.unexpected.reverse.filter opts.shouldApplyDowngrade).map
          (fun m => (m, MigrationMode.downgrade, false)) ++
        (st.before.missing.filter opts.shouldApplyUpgrade).map
          (fun m => (m, MigrationMode.upgrade, false)) ++ latestAtts ∧
      (∀ a ∈ latestAtts, a.2.1 = MigrationMode.upgrade ∧ a.2.2 = true ∧
        a.1 ∈ st.before.shared) ∧
      (st.before.unexpected.reverse.filter opts.shouldApplyDowngrade).Pairwise
        (fun x y => y.id < x.id) ∧
      (st.before.missing.filter opts.shouldApplyUpgrade).Pairwise
        (fun x y => x.id < y.id) ∧
      st.changes = successesOf (synchronizeMigrations ex db dir opts).trace := by
  cases hdir : readMigrationsDir dir with
  | error e =>
    rw [sync_dirError ex db dir opts hdir] at hres
    cases hres
  | ok expected =>
    have happle : ((readMigrationsTable db).map Migration.id).Nodup :=
      ((sortByKey_perm Migration.id db.ledger).map Migration.id).nodup_iff.mpr hnodup
    by_cases habortc : (!(compareMigrationState expected
        (readMigrationsTable db)).unexpected.isEmpty &&
        opts.abortOnUnexpected) = true
    · have hla := Bool.and_eq_true_iff.mp habortc
      have hunex : (compareMigrationState expected
          (readMigrationsTable db)).unexpected ≠ [] := by
        have h1 := hla.1
        simpa using h1
      rw [sync_abort ex db dir opts hdir hla.2 hunex] at hres
      dsimp only at hres
      cases hres
      rcases hnoabort with hf | hu
      · rw [hf] at hla
        cases hla.2
      · exact absurd hu hunex
    · have hnoab : (!(compareMigrationState expected
          (readMigrationsTable db)).unexpected.isEmpty &&
          opts.abortOnUnexpected) = false := by
        rwa [Bool.not_eq_true] at habortc
      have hdown_pair : ((compareMigrationState expected
          (readMigrationsTable db)).unexpected.reverse.filter
            opts.shouldApplyDowngrade).Pairwise (fun x y => y.id < x.id) := by
        have hstrict := @cmp_unexpected_strict expected (readMigrationsTable db)
          happle
        have hrev : ((compareMigrationState expected
            (readMigrationsTable db)).unexpected.reverse).Pairwise
            (fun x y => y.id < x.id) := by
          rwa [List.pairwise_reverse]
        exact hrev.sublist (List.filter_sublist _)
      have hup_pair : ((compareMigrationState expected
          (readMigrationsTable db)).missing.filter
            opts.shouldApplyUpgrade).Pairwise (fun x y => x.id < y.id) :=
        (cmp_missing_strict (readMigrationsDir_ok_nodup hdir)).sublist
          (List.filter_sublist _)
      rcases sync_noabort_cases ex db dir opts expected _ hdir rfl hnoab with
        ⟨sE, -, hsync⟩ | ⟨s1, hr1, hrest⟩
      · rw [hsync] at hres
        cases hres
      rcases hrest with ⟨sE, -, hsync⟩ | ⟨s2, hr2, hrest2⟩
      · rw [hsync] at hres
        cases hres
      obtain ⟨tr1, htr1, hatt1, hch1, hmem1, hldg1, hemp1, hlen1⟩ :=
        runPhase_ok_inv ex .downgrade opts.shouldApplyDowngrade _ _ _ hr1
      obtain ⟨tr2, htr2, hatt2, hch2, hmem2, hldg2, hemp2, hlen2⟩ :=
        runPhase_ok_inv ex .upgrade opts.shouldApplyUpgrade _ _ _ hr2
      rcases hrest2 with ⟨hlatf, hsync⟩ | ⟨hlatt, latest, hlast, hrest3⟩
      · rw [hsync] at hres
        dsimp only at hres
        cases hres
        refine ⟨[], ?_, by simp, hdown_pair, hup_pair, ?_⟩
        · rw [hsync]
          show attemptsOf s2.trace = _
          rw [htr2, htr1]
          show attemptsOf ([] ++ tr1 ++ tr2) = _
          rw [List.nil_append, attemptsOf_append, hatt1, hatt2, List.append_nil]
        · rw [hsync]
          show s2.changes = successesOf s2.trace
          rw [htr2, htr1, hch2, hch1]
          show [] ++ successesOf tr1 ++ successesOf tr2 =
            successesOf ([] ++ tr1 ++ tr2)
          rw [List.nil_append, List.nil_append, successesOf_append]
      · rcases hrest3 with ⟨sE, -, hsync⟩ | ⟨s3, b, hsa3, hsync⟩
        · rw [hsync] at hres
          cases hres
        · obtain ⟨scripts, db3, happ3, hdb3, hch3, htr3⟩ := syncApply_ok_inv hsa3
          have hb : b = true := applyMigration_forced_true happ3
          subst hb
          rw [if_true_eq] at hsync
          dsimp only at hsync
          rw [hsync] at hres
          dsimp only at hres
          cases hres
          refine ⟨[(latest, MigrationMode.upgrade, true)], ?_, ?_, hdown_pair,
            hup_pair, ?_⟩
          · rw [hsync]
            show attemptsOf s3.trace = _
            rw [htr3, htr2, htr1]
            show attemptsOf ([] ++ tr1 ++ tr2 ++ _) = _
            rw [List.nil_append, attemptsOf_append, attemptsOf_append, hatt1,
              hatt2,
              attemptsOf_block latest .upgrade true scripts
                (Event.finished latest .upgrade true) rfl]
          · intro a ha
            rcases List.mem_singleton.mp ha with rfl
            exact ⟨rfl, rfl, getLast?_mem_list hlast⟩
          · rw [hsync]
            show s3.changes ++ _ = successesOf s3.trace
            rw [htr3, htr2, htr1, hch3, hch2, hch1]
            show [] ++ successesOf tr1 ++ successesOf tr2 ++ _ =
              successesOf ([] ++ tr1 ++ tr2 ++ _)
            rw [List.nil_append, List.nil_append, successesOf_append,
              successesOf_append]
            have hblock : successesOf (Event.started latest .upgrade true ::
                scripts.map Event.executed ++
                [Event.finished latest .upgrade true]) =
                [(latest, MigrationMode.upgrade)] := by
              rw [successesOf_block_finished]
              simp
            rw [hblock]

/-- Witness for C5 at a concrete non-aborting run: one unexpected row is
downgraded (highest first), then one missing migration is upgraded. -/
theorem claim_C5_witness :
    (((⟨[⟨2, "x", "u", "d"⟩], ()⟩ : Db Unit).ledger.map Migration.id).Nodup) ∧
    ((synchronizeMigrations (fun _ _ => some ()) (⟨[⟨2, "x", "u", "d"⟩], ()⟩ : Db Unit)
        [("1.init.sql", "--trudge:upgrade\nCREATE X\n--trudge:downgrade\nDROP X")]
        { abortOnUnexpected := false }).result =
      .ok ⟨⟨[], [⟨1, "init", "CREATE X", "DROP X"⟩], [⟨2, "x", "u", "d"⟩]⟩,
        ⟨[⟨1, "init", "CREATE X", "DROP X"⟩], [], []⟩,
        [(⟨2, "x", "u", "d"⟩, .downgrade), (⟨1, "init", "CREATE X", "DROP X"⟩, .upgrade)]⟩) ∧
    (SyncOpts.abortOnUnexpected { abortOnUnexpected := false } = false) ∧
    (∃ latestAtts,
      attemptsOf (synchronizeMigrations (fun _ _ => some ())
          (⟨[⟨2, "x", "u", "d"⟩], ()⟩ : Db Unit)
          [("1.init.sql", "--trudge:upgrade\nCREATE X\n--trudge:downgrade\nDROP X")]
          { abortOnUnexpected := false }).trace =
        ((SynchronizeState.mk
            ⟨[], [⟨1, "init", "CREATE X", "DROP X"⟩], [⟨2, "x", "u", "d"⟩]⟩
            ⟨[⟨1, "init", "CREATE X", "DROP X"⟩], [], []⟩
            [(⟨2, "x", "u", "d"⟩, .downgrade),
              (⟨1, "init", "CREATE X", "DROP X"⟩, .upgrade)]).before.unexpected.reverse.filter
          (SyncOpts.shouldApplyDowngrade { abortOnUnexpected := false })).map
            (fun m => (m, MigrationMode.downgrade, false)) ++
        ((SynchronizeState.mk
            ⟨[], [⟨1, "init", "CREATE X", "DROP X"⟩], [⟨2, "x", "u", "d"⟩]⟩
            ⟨[⟨1, "init", "CREATE X", "DROP X"⟩], [], []⟩
            [(⟨2, "x", "u", "d"⟩, .downgrade),
              (⟨1, "init", "CREATE X", "DROP X"⟩, .upgrade)]).before.missing.filter
          (SyncOpts.shouldApplyUpgrade { abortOnUnexpected := false })).map
            (fun m => (m, MigrationMode.upgrade, false)) ++ latestAtts ∧
      (∀ a ∈ latestAtts, a.2.1 = MigrationMode.upgrade ∧ a.2.2 = true ∧
        a.1 ∈ (SynchronizeState.mk
            ⟨[], [⟨1, "init", "CREATE X", "DROP X"⟩], [⟨2, "x", "u", "d"⟩]⟩
            ⟨[⟨1, "init", "CREATE X", "DROP X"⟩], [], []⟩
            [(⟨2, "x", "u", "d"⟩, .downgrade),
              (⟨1, "init", "CREATE X", "DROP X"⟩, .upgrade)]).before.shared) ∧
      ((SynchronizeState.mk
          ⟨[], [⟨1, "init", "CREATE X", "DROP X"⟩], [⟨2, "x", "u", "d"⟩]⟩
          ⟨[⟨1, "init", "CREATE X", "DROP X"⟩], [], []⟩
          [(⟨2, "x", "u", "d"⟩, .downgrade),
            (⟨1, "init", "CREATE X", "DROP X"⟩, .upgrade)]).before.unexpected.reverse.filter
        (SyncOpts.shouldApplyDowngrade { abortOnUnexpected := false })).Pairwise
          (fun x y => y.id < x.id) ∧
      ((SynchronizeState.mk
          ⟨[], [⟨1, "init", "CREATE X", "DROP X"⟩], [⟨2, "x", "u", "d"⟩]⟩
          ⟨[⟨1, "init", "CREATE X", "DROP X"⟩], [], []⟩
          [(⟨2, "x", "u", "d"⟩, .downgrade),
            (⟨1, "init", "CREATE X", "DROP X"⟩, .upgrade)]).before.missing.filter
        (SyncOpts.shouldApplyUpgrade { abortOnUnexpected := false })).Pairwise
          (fun x y => x.id < y.id) ∧
      (SynchronizeState.mk
          ⟨[], [⟨1, "init", "CREATE X", "DROP X"⟩], [⟨2, "x", "u", "d"⟩]⟩
          ⟨[⟨1, "init", "CREATE X", "DROP X"⟩], [], []⟩
          [(⟨2, "x", "u", "d"⟩, .downgrade),
            (⟨1, "init", "CREATE X", "DROP X"⟩, .upgrade)]).changes =
        successesOf (synchronizeMigrations (fun _ _ => some ())
          (⟨[⟨2, "x", "u", "d"⟩], ()⟩ : Db Unit)
          [("1.init.sql", "--trudge:upgrade\nCREATE X\n--trudge:downgrade\nDROP X")]
          { abortOnUnexpected := false }).trace) :=
  ⟨by decide, by decide, rfl,
    claim_C5 (fun _ _ => some ()) ⟨[⟨2, "x", "u", "d"⟩], ()⟩
      [("1.init.sql", "--trudge:upgrade\nCREATE X\n--trudge:downgrade\nDROP X")]
      { abortOnUnexpected := false }
      ⟨⟨[], [⟨1, "init", "CREATE X", "DROP X"⟩], [⟨2, "x", "u", "d"⟩]⟩,
        ⟨[⟨1, "init", "CREATE X", "DROP X"⟩], [], []⟩,
        [(⟨2, "x", "u", "d"⟩, .downgrade),
          (⟨1, "init", "CREATE X", "DROP X"⟩, .upgrade)]⟩
      (by decide) (by decide) (Or.inl rfl)⟩

/-- C6: when a script raises, the run returns the error with the failing
migration's identity attached as the final `failed` event of the trace —
nothing further is attempted — and the database holds exactly the replay
of the successful applies made earlier in the run: each apply is its own
atomic unit, the failing one is rolled back, prior ones stay committed. -/
theorem claim_C6 {σ : Type} (ex : String → σ → Option σ) (db : Db σ)
    (dir : List (String × String)) (opts : SyncOpts)
    (herr : (synchronizeMigrations ex db dir opts).result = .error .applyError) :
    ∃ m mode t,
      (synchronizeMigrations ex db dir opts).trace = t ++ [Event.failed m mode] ∧
      (synchronizeMigrations ex db dir opts).db.ledger =
        (successesOf (synchronizeMigrations ex db dir opts).trace).foldl
          applyChange db.ledger := by
  cases hdir : readMigrationsDir dir with
  | error e =>
    rw [sync_dirError ex db dir opts hdir] at herr
    simp at herr
  | ok expected =>
    by_cases habortc : (!(compareMigrationState expected
        (readMigrationsTable db)).unexpected.isEmpty &&
        opts.abortOnUnexpected) = true
    · have hla := Bool.and_eq_true_iff.mp habortc
      have hunex : (compareMigrationState expected
          (readMigrationsTable db)).unexpected ≠ [] := by
        have h1 := hla.1
        simpa using h1
      rw [sync_abort ex db dir opts hdir hla.2 hunex] at herr
      simp at herr
    · have hnoab : (!(compareMigrationState expected
          (readMigrationsTable db)).unexpected.isEmpty &&
          opts.abortOnUnexpected) = false := by
        rwa [Bool.not_eq_true] at habortc
      rcases sync_noabort_cases ex db dir opts expected _ hdir rfl hnoab with
        ⟨sE, hr1, hsync⟩ | ⟨s1, hr1, hrest⟩
      · obtain ⟨tr, mF, htrE, hsuccE, hldgE⟩ :=
          runPhase_error_inv ex .downgrade opts.shouldApplyDowngrade _ _ _ hr1
        refine ⟨mF, .downgrade, tr, ?_, ?_⟩
        · rw [hsync]
          show sE.trace = _
          rw [htrE]
          simp
        · rw [hsync]
          show sE.db.ledger = (successesOf sE.trace).foldl applyChange db.ledger
          rw [htrE]
          show sE.db.ledger =
            (successesOf ([] ++ tr ++ [Event.failed mF .downgrade])).foldl
              applyChange db.ledger
          rw [List.nil_append, successesOf_failed]
          exact hldgE
      · obtain ⟨tr1, htr1, hatt1, hch1, hmem1, hldg1, hemp1, hlen1⟩ :=
          runPhase_ok_inv ex .downgrade opts.shouldApplyDowngrade _ _ _ hr1
        rcases hrest with ⟨sE, hr2, hsync⟩ | ⟨s2, hr2, hrest2⟩
        · obtain ⟨tr2, mF, htrE, hsuccE, hldgE⟩ :=
            runPhase_error_inv ex .upgrade opts.shouldApplyUpgrade _ _ _ hr2
          refine ⟨mF, .upgrade, tr1 ++ tr2, ?_, ?_⟩
          · rw [hsync]
            show sE.trace = _
            rw [htrE, htr1]
            simp
          · rw [hsync]
            show sE.db.ledger = (successesOf sE.trace).foldl applyChange db.ledger
            rw [htrE, htr1]
            show sE.db.ledger =
              (successesOf (([] ++ tr1) ++ tr2 ++ [Event.failed mF .upgrade])).foldl
                applyChange db.ledger
            rw [List.nil_append, successesOf_failed, successesOf_append,
              List.foldl_append]
            rw [hldgE, hldg1]
        · obtain ⟨tr2, htr2, hatt2, hch2, hmem2, hldg2, hemp2, hlen2⟩ :=
            runPhase_ok_inv ex .upgrade opts.shouldApplyUpgrade _ _ _ hr2
          rcases hrest2 with ⟨-, hsync⟩ | ⟨-, latest, -, hrest3⟩
          · rw [hsync] at herr
            simp at herr
          · rcases hrest3 with ⟨sE, hsa3, hsync⟩ | ⟨s3, b, hsa3, hsync⟩
            · obtain ⟨scripts, happ3, hdbE, hchE, htrE⟩ := syncApply_error_inv hsa3
              refine ⟨latest, .upgrade,
                tr1 ++ tr2 ++ (Event.started latest .upgrade true ::
                  scripts.map Event.executed), ?_, ?_⟩
              · rw [hsync]
                show sE.trace = _
                rw [htrE, htr2, htr1]
                simp
              · rw [hsync]
                show sE.db.ledger =
                  (successesOf sE.trace).foldl applyChange db.ledger
                rw [htrE, htr2, htr1, hdbE]
                have hsb : successesOf (Event.started latest .upgrade true ::
                    scripts.map Event.executed ++
                    [Event.failed latest .upgrade]) = [] := by
                  rw [show Event.started latest .upgrade true ::
                      scripts.map Event.executed ++ [Event.failed latest .upgrade] =
                    [Event.started latest .upgrade true] ++
                      scripts.map Event.executed ++
                      [Event.failed latest .upgrade] from rfl,
                    successesOf_append, successesOf_append, successesOf_executeds]
                  rfl
                show s2.db.ledger =
                  (successesOf ((([] ++ tr1) ++ tr2) ++ _)).foldl
                    applyChange db.ledger
                rw [List.nil_append, successesOf_append, hsb, List.append_nil,
                  successesOf_append, List.foldl_append]
                rw [hldg2, hldg1]
            · rw [hsync] at herr
              simp at herr

/-- Witness for C6 at a concrete failing run: the only script raises, the
trace ends with the failed event and the ledger stays empty. -/
theorem claim_C6_witness :
    ((synchronizeMigrations
        (fun s (_ : Unit) => if s = "BOOM" then none else some ())
        (⟨[], ()⟩ : Db Unit)
        [("1.boom.sql", "--trudge:upgrade\nBOOM\n--trudge:downgrade\nok")]
        {}).result = .error .applyError) ∧
    (∃ m mode t,
      (synchronizeMigrations
          (fun s (_ : Unit) => if s = "BOOM" then none else some ())
          (⟨[], ()⟩ : Db Unit)
          [("1.boom.sql", "--trudge:upgrade\nBOOM\n--trudge:downgrade\nok")]
          {}).trace = t ++ [Event.failed m mode] ∧
      (synchronizeMigrations
          (fun s (_ : Unit) => if s = "BOOM" then none else some ())
          (⟨[], ()⟩ : Db Unit)
          [("1.boom.sql", "--trudge:upgrade\nBOOM\n--trudge:downgrade\nok")]
          {}).db.ledger =
        (successesOf (synchronizeMigrations
            (fun s (_ : Unit) => if s = "BOOM" then none else some ())
            (⟨[], ()⟩ : Db Unit)
            [("1.boom.sql", "--trudge:upgrade\nBOOM\n--trudge:downgrade\nok")]
            {}).trace).foldl applyChange (⟨[], ()⟩ : Db Unit).ledger) :=
  ⟨by decide,
    claim_C6 (fun s (_ : Unit) => if s = "BOOM" then none else some ())
      ⟨[], ()⟩
      [("1.boom.sql", "--trudge:upgrade\nBOOM\n--trudge:downgrade\nok")]
      {} (by decide)⟩

/-- C1 (amended): for every successful run with the rerun-latest policy
off, `changes` is empty iff `before` equals `after`, and iff no database
mutation occurred (the connection's state is unchanged and no script was
submitted to `db.exec`).  With rerun-latest on, the forced re-apply
records a change while `before` still equals `after`; see the
counterexample. -/
theorem claim_C1 {σ : Type} (ex : String → σ → Option σ) (db : Db σ)
    (dir : List (String × String)) (opts : SyncOpts) (st : SynchronizeState)
    (hforce : opts.forceLatestIfSynchronized = false)
    (hres : (synchronizeMigrations ex db dir opts).result = .ok st) :
    (st.changes = [] ↔ st.before = st.after) ∧
    (st.changes = [] ↔ ((synchronizeMigrations ex db dir opts).db = db ∧
      execsOf (synchronizeMigrations ex db dir opts).trace = [])) := by
  cases hdir : readMigrationsDir dir with
  | error e =>
    rw [sync_dirError ex db dir opts hdir] at hres
    cases hres
  | ok expected =>
    by_cases habortc : (!(compareMigrationState expected
        (readMigrationsTable db)).unexpected.isEmpty &&
        opts.abortOnUnexpected) = true
    · have hla := Bool.and_eq_true_iff.mp habortc
      have hunex : (compareMigrationState expected
          (readMigrationsTable db)).unexpected ≠ [] := by
        have h1 := hla.1
        simpa using h1
      have habort := sync_abort ex db dir opts hdir hla.2 hunex
      rw [habort] at hres
      dsimp only at hres
      cases hres
      rw [habort]
      exact ⟨by simp, by simp [execsOf]⟩
    · have hnoab : (!(compareMigrationState expected
          (readMigrationsTable db)).unexpected.isEmpty &&
          opts.abortOnUnexpected) = false := by
        rwa [Bool.not_eq_true] at habortc
      rcases sync_noabort_cases ex db dir opts expected _ hdir rfl hnoab with
        ⟨sE, -, hsync⟩ | ⟨s1, hr1, hrest⟩
      · rw [hsync] at hres
        cases hres
      rcases hrest with ⟨sE, -, hsync⟩ | ⟨s2, hr2, hrest2⟩
      · rw [hsync] at hres
        cases hres
      rcases hrest2 with ⟨-, hsync⟩ | ⟨hlatt, -⟩
      swap
      · exfalso
        rw [hforce, Bool.false_and, Bool.false_and, Bool.false_and] at hlatt
        cases hlatt
      obtain ⟨tr1, htr1, hatt1, hch1, hmem1, hldg1, hemp1, hlen1⟩ :=
        runPhase_ok_inv ex .downgrade opts.shouldApplyDowngrade _ _ _ hr1
      obtain ⟨tr2, htr2, hatt2, hch2, hmem2, hldg2, hemp2, hlen2⟩ :=
        runPhase_ok_inv ex .upgrade opts.shouldApplyUpgrade _ _ _ hr2
      obtain ⟨hsub_down, hchf_down⟩ :=
        runPhase_down_facts ex opts.shouldApplyDowngrade _ _ _ hr1
      obtain ⟨hmono_up, hchf_up⟩ :=
        runPhase_up_facts ex opts.shouldApplyUpgrade _ _ _ hr2
      rw [hsync] at hres
      dsimp only at hres
      cases hres
      have htro : (synchronizeMigrations ex db dir opts).trace = tr1 ++ tr2 := by
        rw [hsync]
        show s2.trace = _
        rw [htr2, htr1]
        rfl
      have hdbo : (synchronizeMigrations ex db dir opts).db = s2.db := by
        rw [hsync]
      have hcho : s2.changes = successesOf tr1 ++ successesOf tr2 := by
        rw [hch2, hch1]
        rfl
      have hch1' : s1.changes = successesOf tr1 := by
        rw [hch1]
        rfl
      have hldg1' : s1.db.ledger = (successesOf tr1).foldl applyChange db.ledger :=
        hldg1
      have hkey : s2.changes = [] → s2.db = db ∧ execsOf (tr1 ++ tr2) = [] := by
        intro hc
        rw [hcho] at hc
        obtain ⟨hs1, hs2⟩ := List.append_eq_nil.mp hc
        have hdb1 : s1.db = db := hemp1 hs1
        have hdb2 : s2.db = s1.db := hemp2 hs2
        refine ⟨hdb2.trans hdb1, ?_⟩
        rw [execsOf_append]
        have he1 : execsOf tr1 = [] := by
          rw [← List.length_eq_zero]
          rw [hlen1, hs1]
          rfl
        have he2 : execsOf tr2 = [] := by
          rw [← List.length_eq_zero]
          rw [hlen2, hs2]
          rfl
        rw [he1, he2]
        rfl
      constructor
      · constructor
        · intro hc
          obtain ⟨hdb2, -⟩ := hkey hc
          show compareMigrationState expected (readMigrationsTable db) =
            compareMigrationState expected (readMigrationsTable s2.db)
          rw [hdb2]
        · intro hba
          have hba' : compareMigrationState expected (readMigrationsTable db) =
              compareMigrationState expected (readMigrationsTable s2.db) := hba
          show s2.changes = []
          by_contra hne
          obtain ⟨p, hp⟩ := List.exists_mem_of_ne_nil _ hne
          rw [hcho] at hp
          rcases List.mem_append.mp hp with hpd | hpu
          · obtain ⟨hpmode, hpmem⟩ := hmem1 p hpd
            have hu : p.1 ∈ (compareMigrationState expected
                (readMigrationsTable db)).unexpected :=
              List.mem_reverse.mp hpmem
            have hps1 : p ∈ s1.changes := by
              rw [hch1']
              exact hpd
            rcases hchf_down p hps1 with habs | ⟨-, hnoid⟩
            · cases habs
            · have hafter : p.1 ∈ (compareMigrationState expected
                  (readMigrationsTable s2.db)).unexpected := hba' ▸ hu
              obtain ⟨hmem2db, -⟩ := mem_unexpected_inv hafter
              have hin2 : p.1 ∈ s2.db.ledger := sortByKey_mem.mp hmem2db
              rw [hldg2] at hin2
              rcases replay_mem _ _ hin2 with hin1 | ⟨q, hq, hqe⟩
              · have : hasId s1.db.ledger p.1.id = true :=
                  hasId_iff_exists.mpr ⟨p.1, hin1, rfl⟩
                rw [hnoid] at this
                cases this
              · obtain ⟨-, hqmiss⟩ := hmem2 q hq
                rw [hqe] at hqmiss
                obtain ⟨-, hfpnot⟩ := mem_missing_inv hqmiss
                obtain ⟨hmemdb, -⟩ := mem_unexpected_inv hu
                exact hfpnot (List.mem_map_of_mem _ hmemdb)
          · obtain ⟨hpmode, hpmiss⟩ := hmem2 p hpu
            have hps2 : p ∈ s2.changes := by
              rw [hcho]
              exact List.mem_append_right _ hpu
            rcases hchf_up p hps2 with hin1 | ⟨-, hinledger⟩
            · rw [hch1'] at hin1
              obtain ⟨hdown, -⟩ := hmem1 p hin1
              rw [hpmode] at hdown
              cases hdown
            · have hmiss : p.1 ∈ (compareMigrationState expected
                  (readMigrationsTable db)).missing := hpmiss
              have hafter : p.1 ∈ (compareMigrationState expected
                  (readMigrationsTable s2.db)).missing := hba' ▸ hmiss
              obtain ⟨-, hfpnot⟩ := mem_missing_inv hafter
              exact hfpnot (List.mem_map_of_mem _ (sortByKey_mem.mpr hinledger))
      · constructor
        · intro hc
          obtain ⟨hdb2, hex⟩ := hkey hc
          rw [hdbo, htro]
          exact ⟨hdb2, hex⟩
        · rintro ⟨-, hexecs⟩
          rw [htro, execsOf_append] at hexecs
          obtain ⟨he1, he2⟩ := List.append_eq_nil.mp hexecs
          have hs1 : successesOf tr1 = [] := by
            rw [← List.length_eq_zero, ← hlen1, he1]
            rfl
          have hs2 : successesOf tr2 = [] := by
            rw [← List.length_eq_zero, ← hlen2, he2]
            rfl
          show s2.changes = []
          rw [hcho, hs1, hs2]
          rfl

/-- Counterexample to C1 as stated: with rerun-latest requested on a fully
synchronized database, the forced upgrade is recorded in `changes` while
`before` equals `after` (the ledger row already existed, so the
insert-or-ignore left the rows unchanged). -/
theorem claim_C1_counterexample :
    (synchronizeMigrations (fun _ _ => some ())
        (⟨[⟨1, "init", "CREATE X", "DROP X"⟩], ()⟩ : Db Unit)
        [("1.init.sql", "--trudge:upgrade\nCREATE X\n--trudge:downgrade\nDROP X")]
        { forceLatestIfSynchronized := true }).result =
      .ok ⟨⟨[⟨1, "init", "CREATE X", "DROP X"⟩], [], []⟩,
        ⟨[⟨1, "init", "CREATE X", "DROP X"⟩], [], []⟩,
        [(⟨1, "init", "CREATE X", "DROP X"⟩, .upgrade)]⟩ ∧
    (synchronizeMigrations (fun _ _ => some ())
        (⟨[⟨1, "init", "CREATE X", "DROP X"⟩], ()⟩ : Db Unit)
        [("1.init.sql", "--trudge:upgrade\nCREATE X\n--trudge:downgrade\nDROP X")]
        { forceLatestIfSynchronized := true }).db =
      ⟨[⟨1, "init", "CREATE X", "DROP X"⟩], ()⟩ ∧
    ¬([(⟨1, "init", "CREATE X", "DROP X"⟩, MigrationMode.upgrade)] =
        ([] : List (Migration × MigrationMode)) ↔
      (⟨[⟨1, "init", "CREATE X", "DROP X"⟩], [], []⟩ : MigrationState) =
        ⟨[⟨1, "init", "CREATE X", "DROP X"⟩], [], []⟩) := by
  decide

/-- Witness for C1 at a concrete up-to-date run with rerun-latest off. -/
theorem claim_C1_witness :
    (SyncOpts.forceLatestIfSynchronized {} = false) ∧
    ((synchronizeMigrations (fun _ _ => some ())
        (⟨[⟨1, "init", "CREATE X", "DROP X"⟩], ()⟩ : Db Unit)
        [("1.init.sql", "--trudge:upgrade\nCREATE X\n--trudge:downgrade\nDROP X")]
        {}).result =
      .ok ⟨⟨[⟨1, "init", "CREATE X", "DROP X"⟩], [], []⟩,
        ⟨[⟨1, "init", "CREATE X", "DROP X"⟩], [], []⟩, []⟩) ∧
    (((SynchronizeState.mk ⟨[⟨1, "init", "CREATE X", "DROP X"⟩], [], []⟩
        ⟨[⟨1, "init", "CREATE X", "DROP X"⟩], [], []⟩ []).changes = [] ↔
      (SynchronizeState.mk ⟨[⟨1, "init", "CREATE X", "DROP X"⟩], [], []⟩
        ⟨[⟨1, "init", "CREATE X", "DROP X"⟩], [], []⟩ []).before =
      (SynchronizeState.mk ⟨[⟨1, "init", "CREATE X", "DROP X"⟩], [], []⟩
        ⟨[⟨1, "init", "CREATE X", "DROP X"⟩], [], []⟩ []).after) ∧
    ((SynchronizeState.mk ⟨[⟨1, "init", "CREATE X", "DROP X"⟩], [], []⟩
        ⟨[⟨1, "init", "CREATE X", "DROP X"⟩], [], []⟩ []).changes = [] ↔
      ((synchronizeMigrations (fun _ _ => some ())
          (⟨[⟨1, "init", "CREATE X", "DROP X"⟩], ()⟩ : Db Unit)
          [("1.init.sql", "--trudge:upgrade\nCREATE X\n--trudge:downgrade\nDROP X")]
          {}).db = ⟨[⟨1, "init", "CREATE X", "DROP X"⟩], ()⟩ ∧
        execsOf (synchronizeMigrations (fun _ _ => some ())
          (⟨[⟨1, "init", "CREATE X", "DROP X"⟩], ()⟩ : Db Unit)
          [("1.init.sql", "--trudge:upgrade\nCREATE X\n--trudge:downgrade\nDROP X")]
          {}).trace = []))) :=
  ⟨rfl, by decide,
    claim_C1 (fun _ _ => some ()) ⟨[⟨1, "init", "CREATE X", "DROP X"⟩], ()⟩
      [("1.init.sql", "--trudge:upgrade\nCREATE X\n--trudge:downgrade\nDROP X")]
      {}
      ⟨⟨[⟨1, "init", "CREATE X", "DROP X"⟩], [], []⟩,
        ⟨[⟨1, "init", "CREATE X", "DROP X"⟩], [], []⟩, []⟩
      rfl (by decide)⟩
